import Mathlib

/-!
Verification development for the shadow-project merged-view extension
(`src/extension.ts`).  The code is shallowly embedded: filesystem paths are
lists of characters, the filesystem is an explicit snapshot passed to every
operation, user interactions (quick picks, overwrite confirmations) are
explicit inputs, and every operation of the extension that the claims touch
is translated into a pure, executable Lean function that mirrors the
TypeScript control flow.
-/

namespace ShadowProjectExt

/-- Absolute or relative filesystem paths, modelled as their character
sequence (`string` in the source).  POSIX separators are assumed. -/
abbrev FsPath := List Char

/-- Node `path.join(base, rel)` for a normalized base and a normalized,
non-empty relative component: base, one separator, rel.  (Node additionally
normalizes; callers in the source always join a root/directory with an
entry name or a root-relative path, where this is the identity.) -/
def pathJoin (base rel : FsPath) : FsPath := base ++ '/' :: rel

/-- Split a path into its `/`-separated segments. -/
def splitSeg : FsPath → List FsPath
  | [] => [[]]
  | c :: cs =>
    let r := splitSeg cs
    if c = '/' then [] :: r
    else (c :: r.headD []) :: r.tail

/-- Rejoin segments with `/` separators (left inverse of `splitSeg`). -/
def joinSegs : List FsPath → FsPath
  | [] => []
  | [s] => s
  | s :: rest => s ++ '/' :: joinSegs rest

/-- Length of the common prefix of two segment lists. -/
def commonPrefixLen : List FsPath → List FsPath → Nat
  | a :: as, b :: bs => if a = b then commonPrefixLen as bs + 1 else 0
  | _, _ => 0

/-- Node `path.relative(from, to)` (POSIX, already-resolved arguments):
walk up from `from` to the common ancestor with `..` segments, then down
into `to`. -/
def pathRelative (f t : FsPath) : FsPath :=
  let fsegs := splitSeg f
  let tsegs := splitSeg t
  let c := commonPrefixLen fsegs tsegs
  joinSegs (List.replicate (fsegs.length - c) ['.', '.'] ++ tsegs.drop c)

/-- Node `path.dirname`: all segments but the last. -/
def pathDirname (p : FsPath) : FsPath := joinSegs (splitSeg p).dropLast

/-- Node `path.isAbsolute` (POSIX): starts with a separator. -/
def pathIsAbsolute (p : FsPath) : Bool :=
  match p with
  | '/' :: _ => true
  | _ => false

theorem splitSeg_ne_nil (p : FsPath) : splitSeg p ≠ [] := by
  cases p with
  | nil => simp [splitSeg]
  | cons c cs =>
    simp only [splitSeg]
    split <;> simp

theorem splitSeg_append (a b : FsPath) :
    splitSeg (a ++ '/' :: b) = splitSeg a ++ splitSeg b := by
  induction a with
  | nil => simp [splitSeg]
  | cons c cs ih =>
    show splitSeg (c :: (cs ++ '/' :: b)) = splitSeg (c :: cs) ++ splitSeg b
    simp only [splitSeg]
    by_cases hc : c = '/'
    · simp [hc, ih]
    · have hne := splitSeg_ne_nil cs
      cases hcs : splitSeg cs with
      | nil => exact absurd hcs hne
      | cons s ss => simp [hc, ih, hcs]

theorem joinSegs_splitSeg (p : FsPath) : joinSegs (splitSeg p) = p := by
  induction p with
  | nil => simp [splitSeg, joinSegs]
  | cons c cs ih =>
    simp only [splitSeg]
    by_cases hc : c = '/'
    · have hne := splitSeg_ne_nil cs
      cases hcs : splitSeg cs with
      | nil => exact absurd hcs hne
      | cons s ss =>
        simp only [hc, if_pos rfl]
        simp only [joinSegs]
        rw [hcs] at ih
        simp [ih, hc]
    · have hne := splitSeg_ne_nil cs
      cases hcs : splitSeg cs with
      | nil => exact absurd hcs hne
      | cons s ss =>
        simp only [hc, if_neg hc, hcs]
        rw [hcs] at ih
        cases ss with
        | nil =>
          simp only [joinSegs] at ih ⊢
          simp [ih]
        | cons s2 ss2 =>
          simp only [joinSegs] at ih ⊢
          simp [← ih]

theorem commonPrefixLen_self_append (as bs : List FsPath) :
    commonPrefixLen as (as ++ bs) = as.length := by
  induction as with
  | nil =>
    cases bs with
    | nil => simp [commonPrefixLen]
    | cons b bs => simp [commonPrefixLen]
  | cons a as ih => simp [commonPrefixLen, ih]

/-- The join/relative round trip: rebasing a relative path onto a root and
classifying it back recovers the relative path. -/
theorem pathRelative_pathJoin (r p : FsPath) :
    pathRelative r (pathJoin r p) = p := by
  simp only [pathRelative, pathJoin, splitSeg_append, commonPrefixLen_self_append,
    Nat.sub_self, List.replicate_zero, List.nil_append, List.drop_left, joinSegs_splitSeg]

/-- The `vscode.FileType` values that scanning can report
(`readDirectory` maps `Dirent`s to these). -/
inductive FileType where
  | file
  | directory
  | symbolicLink
  | unknown
deriving DecidableEq, Repr

/-- One stored shadow project registration: `{ name, path }`. -/
structure ShadowProj where
  name : String
  path : FsPath
deriving DecidableEq, Repr

/-- A filesystem node as the extension's stat/access calls see it. -/
inductive FsNode where
  | file (content : String)
  | dir
  | other
deriving DecidableEq, Repr

/-- Result of attempting to list one physical directory: a listing, an
I/O failure (e.g. permission denied), or an absent directory. -/
inductive ScanOutcome where
  | ok (entries : List (String × FileType))
  | ioError
  | absent
deriving DecidableEq, Repr

/-- A filesystem snapshot: the stat/access view (`exists`/`stat` calls)
and the directory-listing view (`readdir` calls).  All extension
operations are modelled against such a snapshot. -/
structure Fs where
  nodes : FsPath → Option FsNode
  readDirRaw : FsPath → ScanOutcome

/-- `MergedProjectsTreeDataProvider.readDirectory`: absent directories
yield `[]`, and any listing error is caught and also yields `[]`
(the `catch` block at the end of `readDirectory` returns `[]`). -/
def readDirectory (fs : Fs) (dirPath : FsPath) : List (String × FileType) :=
  match fs.readDirRaw dirPath with
  | .ok entries => entries
  | .ioError => []
  | .absent => []

/-- The provider state consulted by `getChildren`: workspace root, the
registered shadow projects in registry order, and the compiled ignore
predicates (`workspaceIg` and the `shadowIgs` map keyed by project path). -/
structure ProviderState where
  workspaceRoot : Option FsPath
  shadowProjects : List ShadowProj
  workspaceIg : Option (FsPath → Bool)
  shadowIgs : FsPath → Option (FsPath → Bool)

/-- The provider's `WORKSPACE_ID` constant. -/
def WORKSPACE_ID : String := "__WORKSPACE__"

/-- `MergedItemSource`: one scanned entry tagged with its project. -/
structure MergedItemSource where
  projectName : String
  projectPath : FsPath
  fullPath : FsPath
  fileType : FileType
deriving DecidableEq, Repr

/-- `MergedItemInfo`: per-name record of the workspace source (if any)
and the shadow sources in scan order. -/
structure MergedItemInfo where
  name : String
  workspaceSource : Option MergedItemSource
  shadowSources : List MergedItemSource
deriving DecidableEq, Repr

/-- Whether a source is directory-typed. -/
def srcIsDir (s : MergedItemSource) : Bool := s.fileType = FileType.directory

/-- `MergedItemInfo.primaryType`: Directory wins if any source is a
directory; else the workspace source's type, else the first shadow
source's type, else Unknown. -/
def MergedItemInfo.primaryType (i : MergedItemInfo) : FileType :=
  if i.workspaceSource.any srcIsDir || i.shadowSources.any srcIsDir then
    FileType.directory
  else
    match i.workspaceSource with
    | some s => s.fileType
    | none =>
      match i.shadowSources with
      | s :: _ => s.fileType
      | [] => FileType.unknown

/-- One step of collecting `directoryPaths`: add a directory-typed
source's full path unless already present (JS `Set.add`). -/
def dirStep (acc : List FsPath) (s : MergedItemSource) : List FsPath :=
  if s.fileType = FileType.directory then
    if s.fullPath ∈ acc then acc else acc ++ [s.fullPath]
  else acc

/-- `MergedItemInfo.directoryPaths`: the de-duplicated (insertion-ordered,
as a JS `Set`) full paths of all directory-typed sources, workspace
source first. -/
def MergedItemInfo.directoryPaths (i : MergedItemInfo) : List FsPath :=
  i.shadowSources.foldl dirStep
    (match i.workspaceSource with
     | some s => if s.fileType = FileType.directory then [s.fullPath] else []
     | none => [])

/-- The tree items `getChildren` produces: merged directory items,
workspace file items, shadow file items (`ShadowFileItem`), and the
unknown-kind fallback items.  Only `mergedDir` is collapsible. -/
inductive VNode where
  | mergedDir (label : String) (sourceDirectoryPaths : List FsPath)
  | workspaceFile (label : String) (fullPath : FsPath)
  | shadowFile (label : String) (source : MergedItemSource)
  | unknownItem (label : String) (resourceUri : Option FsPath)
      (description : Option String)
deriving DecidableEq, Repr

/-- The item's label. -/
def VNode.labelOf : VNode → String
  | .mergedDir l _ => l
  | .workspaceFile l _ => l
  | .shadowFile l _ => l
  | .unknownItem l _ _ => l

/-- Whether the item is collapsible (`collapsibleState !== None`):
exactly the merged directory items. -/
def VNode.isCollapsible : VNode → Bool
  | .mergedDir _ _ => true
  | _ => false

/-- The absolute paths an emitted item carries (source directory paths
for merged directories, the file path for file items, the resource URI
for unknown items). -/
def VNode.nodePaths : VNode → List FsPath
  | .mergedDir _ ps => ps
  | .workspaceFile _ p => [p]
  | .shadowFile _ s => [s.fullPath]
  | .unknownItem _ u _ => u.toList

/-- Emission of tree items for one `MergedItemInfo`, following the
`for (const itemInfo of mergedItemsMap.values())` body of `getChildren`. -/
def emitOne (info : MergedItemInfo) : List VNode :=
  if info.primaryType = FileType.directory then
    let allDirPaths := info.directoryPaths
    if allDirPaths.length > 0 then [.mergedDir info.name allDirPaths] else []
  else if info.primaryType = FileType.file then
    match info.workspaceSource with
    | some ws =>
      .workspaceFile info.name ws.fullPath ::
        info.shadowSources.map (fun s => .shadowFile info.name s)
    | none =>
      match info.shadowSources with
      | [] => []
      | firstShadow :: rest =>
        .shadowFile info.name firstShadow ::
          rest.map (fun s => .shadowFile info.name s)
  else
    if info.workspaceSource.isSome || !info.shadowSources.isEmpty then
      [.unknownItem info.name
        (match info.workspaceSource with
         | some s => some s.fullPath
         | none => (info.shadowSources.head?).map (fun s => s.fullPath))
        (if info.workspaceSource.isNone ∧ info.shadowSources ≠ [] then
          (info.shadowSources.head?).map (fun s => s.projectName)
         else none)]
    else []

/-- The characters of a label up to (excluding) the first occurrence of
the display-suffix marker `" ("` — `(label as string).split(' (')[0]`. -/
def takeUntilMarker : FsPath → FsPath
  | [] => []
  | ' ' :: '(' :: _ => []
  | c :: cs => c :: takeUntilMarker cs

/-- The comparison label: `(label as string).split(' (')[0]`. -/
def labelBase (v : VNode) : FsPath := takeUntilMarker (v.labelOf).toList

/-- Lexicographic code-point order on character sequences. -/
def lexLt : FsPath → FsPath → Bool
  | [], [] => false
  | [], _ :: _ => true
  | _ :: _, [] => false
  | a :: as, b :: bs => if a < b then true else if b < a then false else lexLt as bs

/-- Integer result of `localeCompare`, modelled as code-point comparison
(zero exactly on equal labels, which is all the proofs rely on). -/
def strCmp (a b : FsPath) : Int := if a = b then 0 else if lexLt a b then -1 else 1

/-- The sort comparator of `getChildren`: directories first, then compare
the labels with the root-attribution suffix stripped. -/
def cmpItems (a b : VNode) : Int :=
  if a.isCollapsible ≠ b.isCollapsible then (if a.isCollapsible then -1 else 1)
  else strCmp (labelBase a) (labelBase b)

/-- Stable insertion step for the comparator (JS `Array.prototype.sort`
is stable; a later element passes an earlier one only on a strictly
negative comparison). -/
def insertItem (x : VNode) : List VNode → List VNode
  | [] => [x]
  | y :: ys => if cmpItems y x < 0 then y :: insertItem x ys else x :: y :: ys

/-- Stable sort with `cmpItems`, modelling the final
`finalTreeItems.sort(...)` call. -/
def sortItems (l : List VNode) : List VNode := l.foldr insertItem []

/-- One element of `pathsToScan`: a project attribution plus the physical
directory to list. -/
structure ScanPair where
  projectPath : FsPath
  readPath : FsPath
  projectName : String
  isWorkspace : Bool
deriving DecidableEq, Repr

/-- The insertion-ordered `mergedItemsMap` (a JS `Map`), modelled as an
association list: updates happen in place, new keys are appended. -/
abbrev ItemMap := List (String × MergedItemInfo)

/-- `mergedItemsMap.get(name)`. -/
def findInfo : ItemMap → String → Option MergedItemInfo
  | [], _ => none
  | (k, v) :: rest, n => if k = n then some v else findInfo rest n

/-- Attach one source to a `MergedItemInfo`: workspace sources overwrite
`workspaceSource`; shadow sources are appended unless a source with the
same full path is already present. -/
def applySource (i : MergedItemInfo) (isWs : Bool) (src : MergedItemSource) :
    MergedItemInfo :=
  if isWs then { i with workspaceSource := some src }
  else if i.shadowSources.any (fun s => s.fullPath = src.fullPath) then i
  else { i with shadowSources := i.shadowSources ++ [src] }

/-- Get-or-create the entry for `n` in the map (appending a fresh
`MergedItemInfo` like the `mergedItemsMap.set(name, ...)` call) and
attach the source. -/
def updateInfo : ItemMap → String → Bool → MergedItemSource → ItemMap
  | [], n, isWs, src => [(n, applySource ⟨n, none, []⟩ isWs src)]
  | (k, v) :: rest, n, isWs, src =>
    if k = n then (k, applySource v isWs src) :: rest
    else (k, v) :: updateInfo rest n isWs src

/-- The ignore instance used for a scan pair:
`isWorkspace ? this.workspaceIg : this.shadowIgs.get(projectPath)`. -/
def igFor (st : ProviderState) (pr : ScanPair) : Option (FsPath → Bool) :=
  if pr.isWorkspace then st.workspaceIg else st.shadowIgs pr.projectPath

/-- The `MergedItemSource` built for one scanned entry. -/
def sourceOfEntry (pr : ScanPair) (nm : String) (ty : FileType) :
    MergedItemSource :=
  { projectName := pr.projectName
    projectPath := pr.projectPath
    fullPath := pathJoin pr.readPath nm.toList
    fileType := ty }

/-- The path handed to the ignore predicate: the root-relative path of
the entry, with a trailing separator appended for directories. -/
def pathToCheckOf (pr : ScanPair) (nm : String) (ty : FileType) : FsPath :=
  let relativePath := pathRelative pr.projectPath (pathJoin pr.readPath nm.toList)
  if ty = FileType.directory then relativePath ++ ['/'] else relativePath

/-- Whether the scan loop skips this entry: the universal `.git`
directory exclusion, or the pair's ignore predicate matching
`pathToCheck`. -/
def skipsEntry (st : ProviderState) (pr : ScanPair) (nm : String)
    (ty : FileType) : Bool :=
  (decide (nm = ".git") && decide (ty = FileType.directory)) ||
    (match igFor st pr with
     | some g => g (pathToCheckOf pr nm ty)
     | none => false)

/-- The body of the `for (const { projectPath, readPath, ... } of
pathsToScan)` loop for one pair: list the directory and fold the
surviving entries into the map. -/
def processPair (st : ProviderState) (fs : Fs) (m : ItemMap) (pr : ScanPair) :
    ItemMap :=
  (readDirectory fs pr.readPath).foldl
    (fun m e =>
      if skipsEntry st pr e.1 e.2 then m
      else updateInfo m e.1 pr.isWorkspace (sourceOfEntry pr e.1 e.2))
    m

/-- The entries of one scan pair that survive the skip checks, as
`(isWorkspace, name, source)` triples. -/
def survivors (st : ProviderState) (fs : Fs) (pr : ScanPair) :
    List (Bool × String × MergedItemSource) :=
  (readDirectory fs pr.readPath).filterMap
    (fun e =>
      if skipsEntry st pr e.1 e.2 then none
      else some (pr.isWorkspace, e.1, sourceOfEntry pr e.1 e.2))

/-- All surviving entries of a scan list, in scan order. -/
def allSurvivors (st : ProviderState) (fs : Fs) (pairs : List ScanPair) :
    List (Bool × String × MergedItemSource) :=
  pairs.flatMap (survivors st fs)

/-- Build the merged-items map from the scan list. -/
def buildMap (st : ProviderState) (fs : Fs) (pairs : List ScanPair) : ItemMap :=
  pairs.foldl (processPair st fs) []

/-- Emit tree items for every map value, in map (insertion) order. -/
def emitAll (m : ItemMap) : List VNode := m.flatMap (fun kv => emitOne kv.2)

/-- The merge engine: scan all pairs, merge, emit, sort.  Every
`getChildren` call reduces to this function on some scan list. -/
def computeFromPairs (st : ProviderState) (fs : Fs) (pairs : List ScanPair) :
    List VNode :=
  sortItems (emitAll (buildMap st fs pairs))

/-- The first shadow project whose path is a string prefix of the query
(`this.shadowProjects.find(p => dirPath.startsWith(p.path))`). -/
def classifyShadow (st : ProviderState) (dirPath : FsPath) : Option ScanPair :=
  (st.shadowProjects.find? (fun p => p.path.isPrefixOf dirPath)).map
    (fun sh => ⟨sh.path, dirPath, sh.name, false⟩)

/-- Determine the owning project of a source directory path, as in the
merged-directory and simple-directory branches of `getChildren`
(lines 1725-1740 and 1750-1763, which inline identical logic): the
workspace root is tested first with `startsWith`, then each shadow
project in registry order; `none` when no root's path is a prefix.
JS truthiness of `this.workspaceRoot` makes an empty root never match. -/
def classifyDirPath (st : ProviderState) (dirPath : FsPath) : Option ScanPair :=
  match st.workspaceRoot with
  | some wr =>
    if !wr.isEmpty && wr.isPrefixOf dirPath then
      some ⟨wr, dirPath, WORKSPACE_ID, true⟩
    else classifyShadow st dirPath
  | none => classifyShadow st dirPath

/-- The tree element `getChildren` receives: nothing (root), a
`MergedDirectoryItem`, a plain collapsible item with a resource URI, or
a leaf. -/
inductive TreeElement where
  | mergedDirectoryItem (label : String) (sourceDirectoryPaths : List FsPath)
  | plainDirItem (label : String) (resourceUri : FsPath)
  | leafItem

/-- Root-level `pathsToScan`: the workspace root (when set, non-empty
and existing), then every existing shadow project in registry order. -/
def rootPathsToScan (st : ProviderState) (fs : Fs) : List ScanPair :=
  (match st.workspaceRoot with
   | some wr =>
     if !wr.isEmpty && (fs.nodes wr).isSome then
       [⟨wr, wr, WORKSPACE_ID, true⟩]
     else []
   | none => []) ++
  (st.shadowProjects.filter (fun p => (fs.nodes p.path).isSome)).map
    (fun p => ⟨p.path, p.path, p.name, false⟩)

/-- `MergedProjectsTreeDataProvider.getChildren`. -/
def getChildren (st : ProviderState) (fs : Fs) (element : Option TreeElement) :
    List VNode :=
  match element with
  | none => computeFromPairs st fs (rootPathsToScan st fs)
  | some (.mergedDirectoryItem _ paths) =>
    computeFromPairs st fs (paths.filterMap (classifyDirPath st))
  | some (.plainDirItem _ uri) =>
    match classifyDirPath st uri with
    | some pr => computeFromPairs st fs [pr]
    | none => []
  | some .leafItem => []

/-- A root reference recovered by classification. -/
structure RootTag where
  name : String
  path : FsPath
  isWorkspace : Bool
deriving DecidableEq, Repr

/-- The classify operation of the path translator: owning root plus the
root-relative path (`path.relative(projectPath, absolutePath)`), with
the root search of `classifyDirPath`. -/
def classifyAbs (st : ProviderState) (absPath : FsPath) :
    Option (RootTag × FsPath) :=
  (classifyDirPath st absPath).map
    (fun pr => (⟨pr.projectName, pr.projectPath, pr.isWorkspace⟩,
      pathRelative pr.projectPath absPath))

/-- Rebase a root-relative path onto a target root
(`path.join(targetRoot.path, relativePath)`). -/
def rebase (rel : FsPath) (rootPath : FsPath) : FsPath := pathJoin rootPath rel

theorem sortItems_cons (x : VNode) (xs : List VNode) :
    sortItems (x :: xs) = insertItem x (sortItems xs) := rfl

theorem cmpItems_self (v : VNode) : cmpItems v v = 0 := by
  simp [cmpItems, strCmp]

theorem cmpItems_eq_zero_of (a b : VNode)
    (h1 : a.isCollapsible = b.isCollapsible) (h2 : labelBase a = labelBase b) :
    cmpItems a b = 0 := by
  simp [cmpItems, strCmp, h1, h2]

theorem labelBase_congr (a b : VNode) (h : a.labelOf = b.labelOf) :
    labelBase a = labelBase b := by
  simp [labelBase, h]

theorem mem_insertItem (x a : VNode) (l : List VNode) :
    a ∈ insertItem x l ↔ a = x ∨ a ∈ l := by
  induction l with
  | nil => simp [insertItem]
  | cons y ys ih =>
    simp only [insertItem]
    split
    · simp only [List.mem_cons, ih]
      tauto
    · simp only [List.mem_cons]

theorem mem_sortItems (a : VNode) (l : List VNode) :
    a ∈ sortItems l ↔ a ∈ l := by
  induction l with
  | nil => simp [sortItems]
  | cons x xs ih =>
    rw [sortItems_cons, mem_insertItem, ih]
    simp

theorem filter_insertItem_pos (Q : VNode → Bool) (x : VNode) (l : List VNode)
    (hx : Q x = true) (h : ∀ y ∈ l, Q y = true → cmpItems y x = 0) :
    (insertItem x l).filter Q = x :: l.filter Q := by
  induction l with
  | nil => simp [insertItem, hx]
  | cons y ys ih =>
    simp only [insertItem]
    by_cases hlt : cmpItems y x < 0
    · have hQy : Q y = false := by
        cases hq : Q y
        · rfl
        · have hz := h y (by simp) hq
          omega
      rw [if_pos hlt]
      rw [List.filter_cons_of_neg (by simp [hQy]), List.filter_cons_of_neg (by simp [hQy])]
      exact ih (fun z hz hq => h z (by simp [hz]) hq)
    · rw [if_neg hlt]
      rw [List.filter_cons_of_pos (by simp [hx])]

theorem filter_insertItem_neg (Q : VNode → Bool) (x : VNode) (l : List VNode)
    (hx : Q x = false) :
    (insertItem x l).filter Q = l.filter Q := by
  induction l with
  | nil => simp [insertItem, hx]
  | cons y ys ih =>
    simp only [insertItem]
    split
    · cases hq : Q y
      · rw [List.filter_cons_of_neg (by simp [hq]), List.filter_cons_of_neg (by simp [hq]), ih]
      · rw [List.filter_cons_of_pos (by simp [hq]), List.filter_cons_of_pos (by simp [hq]), ih]
    · rw [List.filter_cons_of_neg (by simp [hx])]

/-- Stability of the final sort: filtering by a predicate whose members
are pairwise tied under the comparator commutes with sorting. -/
theorem filter_sortItems (Q : VNode → Bool) (l : List VNode)
    (h : ∀ a ∈ l, ∀ b ∈ l, Q a = true → Q b = true → cmpItems a b = 0) :
    (sortItems l).filter Q = l.filter Q := by
  induction l with
  | nil => rfl
  | cons x xs ih =>
    rw [sortItems_cons]
    have ihs : (sortItems xs).filter Q = xs.filter Q :=
      ih (fun a ha b hb => h a (by simp [ha]) b (by simp [hb]))
    cases hx : Q x
    · rw [filter_insertItem_neg Q x _ hx, ihs,
        List.filter_cons_of_neg (by simp [hx])]
    · rw [filter_insertItem_pos Q x _ hx ?_, ihs,
        List.filter_cons_of_pos (by simp [hx])]
      intro y hy hq
      exact h y (by simp [(mem_sortItems y xs).mp hy]) x (by simp) hq hx

/-- A surviving scan entry: attribution flag, entry name, source. -/
abbrev STriple := Bool × String × MergedItemSource

/-- Fold one surviving entry into the map. -/
def addTriple (m : ItemMap) (t : STriple) : ItemMap :=
  updateInfo m t.2.1 t.1 t.2.2

/-- Build the map from a flat list of surviving entries. -/
def buildTriples (L : List STriple) : ItemMap := L.foldl addTriple []

/-- Workspace-attributed triple carrying the given name. -/
def isWsNamed (n : String) (t : STriple) : Bool := t.1 && decide (t.2.1 = n)

/-- Shadow-attributed triple carrying the given name. -/
def isShNamed (n : String) (t : STriple) : Bool := !t.1 && decide (t.2.1 = n)

/-- The workspace source recorded after folding the whole list: the last
workspace-attributed survivor with this name (assignments overwrite). -/
def wsSrcAfter (L : List STriple) (n : String) : Option MergedItemSource :=
  L.foldl (fun acc t => if isWsNamed n t then some t.2.2 else acc) none

/-- The shadow sources of the survivors with this name, in scan order. -/
def shSrcsOf (L : List STriple) (n : String) : List MergedItemSource :=
  (L.filter (isShNamed n)).map (fun t => t.2.2)

/-- First-occurrence de-duplication by full path (the guard in
`applySource`'s shadow branch, accumulated over the scan). -/
def dedupByPath (l : List MergedItemSource) : List MergedItemSource :=
  l.foldl
    (fun acc s =>
      if acc.any (fun a => a.fullPath = s.fullPath) then acc else acc ++ [s])
    []

theorem findInfo_updateInfo_self (m : ItemMap) (n : String) (isWs : Bool)
    (src : MergedItemSource) :
    findInfo (updateInfo m n isWs src) n =
      some (applySource ((findInfo m n).getD ⟨n, none, []⟩) isWs src) := by
  induction m with
  | nil => simp [updateInfo, findInfo]
  | cons kv rest ih =>
    obtain ⟨k, v⟩ := kv
    simp only [updateInfo]
    by_cases hk : k = n
    · subst hk
      simp [findInfo]
    · rw [if_neg hk]
      simp only [findInfo, if_neg hk]
      exact ih

theorem findInfo_updateInfo_other (m : ItemMap) (n n' : String) (isWs : Bool)
    (src : MergedItemSource) (h : n ≠ n') :
    findInfo (updateInfo m n isWs src) n' = findInfo m n' := by
  induction m with
  | nil => simp [updateInfo, findInfo, h]
  | cons kv rest ih =>
    obtain ⟨k, v⟩ := kv
    simp only [updateInfo]
    by_cases hk : k = n
    · subst hk
      simp only [if_pos rfl, findInfo, if_neg h]
    · rw [if_neg hk]
      simp only [findInfo]
      by_cases hk' : k = n'
      · simp [hk']
      · simp [hk', ih]

/-- Well-formedness of the merged-items map: keys are unique and each
value records its own key as its name. -/
def goodMap (m : ItemMap) : Prop :=
  (m.map Prod.fst).Nodup ∧ ∀ kv ∈ m, (kv.2).name = kv.1

theorem applySource_name (i : MergedItemInfo) (isWs : Bool)
    (src : MergedItemSource) : (applySource i isWs src).name = i.name := by
  simp only [applySource]
  split
  · rfl
  · split <;> rfl

theorem keys_updateInfo (m : ItemMap) (n : String) (isWs : Bool)
    (src : MergedItemSource) :
    (updateInfo m n isWs src).map Prod.fst =
      if n ∈ m.map Prod.fst then m.map Prod.fst else m.map Prod.fst ++ [n] := by
  induction m with
  | nil => simp [updateInfo]
  | cons kv rest ih =>
    obtain ⟨k, v⟩ := kv
    simp only [updateInfo]
    by_cases hk : k = n
    · subst hk
      simp
    · rw [if_neg hk]
      have hnk : n ≠ k := fun hh => hk hh.symm
      simp only [List.map_cons, ih]
      by_cases hn : n ∈ rest.map Prod.fst
      · simp [List.mem_cons, hn, hnk]
      · simp [List.mem_cons, hn, hnk]

theorem names_updateInfo (m : ItemMap) (n : String) (isWs : Bool)
    (src : MergedItemSource) (h : ∀ kv ∈ m, (kv.2).name = kv.1) :
    ∀ kv ∈ updateInfo m n isWs src, (kv.2).name = kv.1 := by
  induction m with
  | nil =>
    intro kv hkv
    simp only [updateInfo, List.mem_singleton] at hkv
    subst hkv
    simp [applySource_name]
  | cons kv0 rest ih =>
    obtain ⟨k, v⟩ := kv0
    intro kv hkv
    simp only [updateInfo] at hkv
    by_cases hk : k = n
    · rw [if_pos hk] at hkv
      rcases List.mem_cons.mp hkv with h1 | h2
      · subst h1
        have hv : v.name = k := h (k, v) (by simp)
        simp [applySource_name, hv]
      · exact h kv (by simp [h2])
    · rw [if_neg hk] at hkv
      rcases List.mem_cons.mp hkv with h1 | h2
      · subst h1
        exact h (k, v) (by simp)
      · exact ih (fun kv' h' => h kv' (by simp [h'])) kv h2

theorem goodMap_updateInfo (m : ItemMap) (n : String) (isWs : Bool)
    (src : MergedItemSource) (h : goodMap m) :
    goodMap (updateInfo m n isWs src) := by
  obtain ⟨hnd, hnm⟩ := h
  refine ⟨?_, names_updateInfo m n isWs src hnm⟩
  rw [keys_updateInfo]
  by_cases hn : n ∈ m.map Prod.fst
  · simpa [hn] using hnd
  · rw [if_neg hn]
    simp [List.nodup_append, hnd, hn, List.disjoint_singleton]

theorem goodMap_buildTriples (L : List STriple) : goodMap (buildTriples L) := by
  have hstep : ∀ m : ItemMap, goodMap m → goodMap (L.foldl addTriple m) := by
    induction L with
    | nil => intro m hm; exact hm
    | cons t ts ih =>
      intro m hm
      exact ih _ (goodMap_updateInfo m t.2.1 t.1 t.2.2 hm)
  exact hstep [] ⟨by simp, by simp⟩

theorem findInfo_eq_none_of_not_mem (m : ItemMap) (n : String) :
    n ∉ m.map Prod.fst → findInfo m n = none := by
  induction m with
  | nil => intro _; rfl
  | cons kv rest ih =>
    obtain ⟨k, v⟩ := kv
    intro h
    have hk : k ≠ n := fun he => h (by simp [he])
    have hr : n ∉ rest.map Prod.fst := fun he => h (by simp [he])
    simp only [findInfo, if_neg hk]
    exact ih hr

theorem findInfo_of_mem (m : ItemMap) (kv : String × MergedItemInfo) :
    goodMap m → kv ∈ m → findInfo m kv.1 = some kv.2 := by
  induction m with
  | nil => intro _ h; simp at h
  | cons kv0 rest ih =>
    obtain ⟨k, v⟩ := kv0
    intro hg h
    have hnd : (k :: rest.map Prod.fst).Nodup := by
      have := hg.1
      simpa using this
    rcases List.mem_cons.mp h with h1 | h2
    · subst h1
      simp [findInfo]
    · have hk : k ≠ kv.1 := by
        intro he
        have hmem : kv.1 ∈ rest.map Prod.fst := List.mem_map.mpr ⟨kv, h2, rfl⟩
        rw [he] at hnd
        exact (List.nodup_cons.mp hnd).1 hmem
      simp only [findInfo, if_neg hk]
      exact ih ⟨(List.nodup_cons.mp hnd).2, fun kv' h' => hg.2 kv' (by simp [h'])⟩ h2

theorem foldEntries_eq (st : ProviderState) (pr : ScanPair) :
    ∀ (l : List (String × FileType)) (m : ItemMap),
      l.foldl
        (fun m e =>
          if skipsEntry st pr e.1 e.2 then m
          else updateInfo m e.1 pr.isWorkspace (sourceOfEntry pr e.1 e.2)) m =
      (l.filterMap
        (fun e =>
          if skipsEntry st pr e.1 e.2 then none
          else some (pr.isWorkspace, e.1, sourceOfEntry pr e.1 e.2))).foldl
        addTriple m := by
  intro l
  induction l with
  | nil => intro m; rfl
  | cons e es ih =>
    intro m
    cases hskip : skipsEntry st pr e.1 e.2
    · simp only [List.foldl_cons, List.filterMap_cons, hskip, Bool.false_eq_true,
        if_neg, ite_false]
      rw [ih]
      rfl
    · simp only [List.foldl_cons, List.filterMap_cons, hskip, ite_true]
      exact ih m

theorem processPair_eq (st : ProviderState) (fs : Fs) (pr : ScanPair)
    (m : ItemMap) :
    processPair st fs m pr = (survivors st fs pr).foldl addTriple m := by
  unfold processPair survivors
  exact foldEntries_eq st pr (readDirectory fs pr.readPath) m

theorem buildMap_eq_buildTriples (st : ProviderState) (fs : Fs)
    (pairs : List ScanPair) :
    buildMap st fs pairs = buildTriples (allSurvivors st fs pairs) := by
  have haux : ∀ (ps : List ScanPair) (m : ItemMap),
      ps.foldl (processPair st fs) m =
        (ps.flatMap (survivors st fs)).foldl addTriple m := by
    intro ps
    induction ps with
    | nil => intro m; rfl
    | cons p ps ih =>
      intro m
      simp only [List.foldl_cons, List.flatMap_cons, List.foldl_append]
      rw [processPair_eq, ih]
  exact haux pairs []

theorem buildTriples_append (L : List STriple) (t : STriple) :
    buildTriples (L ++ [t]) = addTriple (buildTriples L) t := by
  simp [buildTriples, List.foldl_append]

theorem wsSrcAfter_append (L : List STriple) (t : STriple) (n : String) :
    wsSrcAfter (L ++ [t]) n =
      if isWsNamed n t then some t.2.2 else wsSrcAfter L n := by
  simp [wsSrcAfter, List.foldl_append]

theorem shSrcsOf_append (L : List STriple) (t : STriple) (n : String) :
    shSrcsOf (L ++ [t]) n =
      shSrcsOf L n ++ (if isShNamed n t then [t.2.2] else []) := by
  simp only [shSrcsOf, List.filter_append]
  cases h : isShNamed n t
  · simp [List.filter_cons, h]
  · simp [List.filter_cons, h]

theorem dedupByPath_append (l : List MergedItemSource) (s : MergedItemSource) :
    dedupByPath (l ++ [s]) =
      if (dedupByPath l).any (fun a => a.fullPath = s.fullPath) then dedupByPath l
      else dedupByPath l ++ [s] := by
  simp [dedupByPath, List.foldl_append]

theorem wsSrcAfter_of_none (L : List STriple) (n : String)
    (h : ∀ t ∈ L, (t.2.1 = n) → False) : wsSrcAfter L n = none := by
  have haux : ∀ (l : List STriple) (acc : Option MergedItemSource),
      (∀ t ∈ l, isWsNamed n t = false) →
      l.foldl (fun acc t => if isWsNamed n t then some t.2.2 else acc) acc = acc := by
    intro l
    induction l with
    | nil => intro acc _; rfl
    | cons t ts ih =>
      intro acc hl
      simp only [List.foldl_cons, hl t (by simp), Bool.false_eq_true, if_neg,
        ite_false]
      exact ih acc (fun u hu => hl u (by simp [hu]))
  exact haux L none
    (fun t ht => by simp [isWsNamed, decide_eq_true_eq]; intro _; exact h t ht)

theorem shSrcsOf_of_none (L : List STriple) (n : String)
    (h : ∀ t ∈ L, (t.2.1 = n) → False) : shSrcsOf L n = [] := by
  simp only [shSrcsOf, List.map_eq_nil_iff, List.filter_eq_nil_iff]
  intro t ht
  simp [isShNamed, decide_eq_true_eq]
  intro _
  exact h t ht

/-- Characterization of the built map at a name: the entry exists exactly
when some survivor carries the name, its workspace source is the last
workspace-attributed survivor (assignments overwrite) and its shadow
sources are the shadow-attributed survivors de-duplicated by full path
in first-seen order. -/
theorem findInfo_buildTriples (L : List STriple) (n : String) :
    findInfo (buildTriples L) n =
      if L.any (fun t => t.2.1 = n) then
        some ⟨n, wsSrcAfter L n, dedupByPath (shSrcsOf L n)⟩
      else none := by
  induction L using List.reverseRecOn with
  | nil => simp [buildTriples, findInfo, wsSrcAfter, shSrcsOf, dedupByPath]
  | append_singleton L t ih =>
    rw [buildTriples_append]
    by_cases hname : t.2.1 = n
    · have hfind : findInfo (addTriple (buildTriples L) t) n =
          some (applySource ((findInfo (buildTriples L) n).getD ⟨n, none, []⟩)
            t.1 t.2.2) := by
        unfold addTriple
        rw [hname]
        exact findInfo_updateInfo_self _ _ _ _
      rw [hfind, ih]
      have hany : ((L ++ [t]).any (fun t => t.2.1 = n)) = true := by
        simp [hname]
      rw [if_pos hany]
      by_cases hLany : (L.any (fun t => t.2.1 = n)) = true
      · rw [if_pos hLany]
        simp only [Option.getD_some]
        cases ht1 : t.1
        · simp only [applySource, ht1, Bool.false_eq_true, if_neg, ite_false]
          rw [wsSrcAfter_append, shSrcsOf_append]
          have hwsn : isWsNamed n t = false := by simp [isWsNamed, ht1]
          have hshn : isShNamed n t = true := by simp [isShNamed, ht1, hname]
          rw [hwsn, hshn]
          simp [dedupByPath_append]
          split <;> rfl
        · simp only [applySource, ht1, ite_true]
          rw [wsSrcAfter_append, shSrcsOf_append]
          have hwsn : isWsNamed n t = true := by simp [isWsNamed, ht1, hname]
          have hshn : isShNamed n t = false := by simp [isShNamed, ht1]
          rw [hwsn, hshn]
          simp
      · rw [if_neg hLany]
        have hno : ∀ u ∈ L, (u.2.1 = n) → False := by
          intro u hu he
          exact hLany (by simp only [List.any_eq_true]; exact ⟨u, hu, by simp [he]⟩)
        have hws0 : wsSrcAfter L n = none := wsSrcAfter_of_none L n hno
        have hsh0 : shSrcsOf L n = [] := shSrcsOf_of_none L n hno
        simp only [Option.getD_none]
        cases ht1 : t.1
        · simp only [applySource, ht1, Bool.false_eq_true, if_neg, ite_false]
          rw [wsSrcAfter_append, shSrcsOf_append]
          have hwsn : isWsNamed n t = false := by simp [isWsNamed, ht1]
          have hshn : isShNamed n t = true := by simp [isShNamed, ht1, hname]
          rw [hwsn, hshn, hws0, hsh0]
          simp [dedupByPath]
        · simp only [applySource, ht1, ite_true]
          rw [wsSrcAfter_append, shSrcsOf_append]
          have hwsn : isWsNamed n t = true := by simp [isWsNamed, ht1, hname]
          have hshn : isShNamed n t = false := by simp [isShNamed, ht1]
          rw [hwsn, hshn, hws0, hsh0]
          simp [dedupByPath]
    · have hfind : findInfo (addTriple (buildTriples L) t) n =
          findInfo (buildTriples L) n :=
        findInfo_updateInfo_other _ _ _ _ _ hname
      rw [hfind, ih]
      have hany : ((L ++ [t]).any (fun t => t.2.1 = n)) =
          (L.any (fun t => t.2.1 = n)) := by
        simp [hname]
      rw [hany]
      have hwsn : isWsNamed n t = false := by simp [isWsNamed, hname]
      have hshn : isShNamed n t = false := by simp [isShNamed, hname]
      rw [wsSrcAfter_append, shSrcsOf_append, hwsn, hshn]
      simp

theorem wsSrcAfter_mem_aux (n : String) :
    ∀ (L : List STriple) (acc : Option MergedItemSource) (s : MergedItemSource),
      L.foldl (fun acc t => if isWsNamed n t then some t.2.2 else acc) acc =
        some s →
      acc = some s ∨ ∃ t ∈ L, isWsNamed n t = true ∧ t.2.2 = s := by
  intro L
  induction L with
  | nil => intro acc s h; exact Or.inl h
  | cons t ts ih =>
    intro acc s h
    simp only [List.foldl_cons] at h
    rcases ih _ s h with h1 | ⟨u, hu, hw, he⟩
    · by_cases hwt : isWsNamed n t = true
      · rw [if_pos hwt] at h1
        exact Or.inr ⟨t, by simp, hwt, (Option.some_inj.mp h1)⟩
      · rw [if_neg hwt] at h1
        exact Or.inl h1
    · exact Or.inr ⟨u, by simp [hu], hw, he⟩

theorem wsSrcAfter_mem (L : List STriple) (n : String) (s : MergedItemSource)
    (h : wsSrcAfter L n = some s) :
    ∃ t ∈ L, isWsNamed n t = true ∧ t.2.2 = s := by
  rcases wsSrcAfter_mem_aux n L none s h with h1 | h2
  · exact absurd h1 (by simp)
  · exact h2

theorem wsSrcAfter_isSome_aux (n : String) :
    ∀ (L : List STriple) (acc : Option MergedItemSource),
      ((∃ t ∈ L, isWsNamed n t = true) ∨ acc.isSome = true) →
      (L.foldl (fun acc t => if isWsNamed n t then some t.2.2 else acc)
        acc).isSome = true := by
  intro L
  induction L with
  | nil =>
    intro acc h
    rcases h with ⟨t, ht, _⟩ | h2
    · simp at ht
    · exact h2
  | cons t ts ih =>
    intro acc h
    simp only [List.foldl_cons]
    rcases h with ⟨u, hu, hw⟩ | h2
    · rcases List.mem_cons.mp hu with h1 | h1
      · subst h1
        exact ih _ (Or.inr (by simp [hw]))
      · exact ih _ (Or.inl ⟨u, h1, hw⟩)
    · by_cases hwt : isWsNamed n t = true
      · exact ih _ (Or.inr (by simp [hwt]))
      · exact ih _ (Or.inr (by rw [if_neg hwt]; exact h2))

theorem wsSrcAfter_isSome (L : List STriple) (n : String) (t : STriple)
    (ht : t ∈ L) (hw : isWsNamed n t = true) :
    (wsSrcAfter L n).isSome = true :=
  wsSrcAfter_isSome_aux n L none (Or.inl ⟨t, ht, hw⟩)

theorem mem_shSrcsOf (L : List STriple) (n : String) (y : MergedItemSource) :
    y ∈ shSrcsOf L n ↔ ∃ t ∈ L, isShNamed n t = true ∧ t.2.2 = y := by
  simp only [shSrcsOf, List.mem_map, List.mem_filter]
  constructor
  · rintro ⟨t, ⟨ht, hf⟩, he⟩
    exact ⟨t, ht, hf, he⟩
  · rintro ⟨t, ht, hf, he⟩
    exact ⟨t, ⟨ht, hf⟩, he⟩

/-- The fold step of `dedupByPath`. -/
def dedupStep (acc : List MergedItemSource) (s : MergedItemSource) :
    List MergedItemSource :=
  if acc.any (fun a => a.fullPath = s.fullPath) then acc else acc ++ [s]

theorem dedupByPath_eq_foldl (l : List MergedItemSource) :
    dedupByPath l = l.foldl dedupStep [] := rfl

theorem dedupFold_mono :
    ∀ (l acc : List MergedItemSource) (x : MergedItemSource), x ∈ acc →
      x ∈ l.foldl dedupStep acc := by
  intro l
  induction l with
  | nil => intro acc x h; exact h
  | cons s ls ih =>
    intro acc x h
    simp only [List.foldl_cons]
    apply ih
    simp only [dedupStep]
    split
    · exact h
    · simp [h]

theorem dedupFold_subset :
    ∀ (l acc : List MergedItemSource) (x : MergedItemSource),
      x ∈ l.foldl dedupStep acc → x ∈ acc ∨ x ∈ l := by
  intro l
  induction l with
  | nil => intro acc x h; exact Or.inl h
  | cons s ls ih =>
    intro acc x h
    simp only [List.foldl_cons] at h
    rcases ih _ x h with h1 | h1
    · simp only [dedupStep] at h1
      split at h1
      · exact Or.inl h1
      · rcases List.mem_append.mp h1 with h2 | h2
        · exact Or.inl h2
        · simp only [List.mem_singleton] at h2
          exact Or.inr (by simp [h2])
    · exact Or.inr (by simp [h1])

theorem dedupFold_covers :
    ∀ (l acc : List MergedItemSource) (x : MergedItemSource), x ∈ l →
      ∃ y ∈ l.foldl dedupStep acc, y.fullPath = x.fullPath := by
  intro l
  induction l with
  | nil => intro acc x h; simp at h
  | cons s ls ih =>
    intro acc x h
    rcases List.mem_cons.mp h with h1 | h1
    · subst h1
      simp only [List.foldl_cons, dedupStep]
      by_cases hany : (acc.any (fun a => a.fullPath = x.fullPath)) = true
      · rw [if_pos hany]
        rcases List.any_eq_true.mp hany with ⟨a, ha, he⟩
        exact ⟨a, dedupFold_mono ls acc a ha, of_decide_eq_true he⟩
      · rw [if_neg hany]
        exact ⟨x, dedupFold_mono ls _ x (by simp), rfl⟩
    · simp only [List.foldl_cons]
      exact ih _ x h1

theorem mem_dedupByPath (l : List MergedItemSource) (x : MergedItemSource)
    (h : x ∈ l) : ∃ y ∈ dedupByPath l, y.fullPath = x.fullPath :=
  dedupFold_covers l [] x h

theorem dedupByPath_subset (l : List MergedItemSource) (x : MergedItemSource)
    (h : x ∈ dedupByPath l) : x ∈ l := by
  rcases dedupFold_subset l [] x h with h1 | h1
  · simp at h1
  · exact h1

theorem dedupFold_eq_of_pairwise :
    ∀ (l acc : List MergedItemSource),
      (∀ x ∈ l, ∀ a ∈ acc, a.fullPath ≠ x.fullPath) →
      l.Pairwise (fun a b => a.fullPath ≠ b.fullPath) →
      l.foldl dedupStep acc = acc ++ l := by
  intro l
  induction l with
  | nil => intro acc _ _; simp
  | cons s ls ih =>
    intro acc hdisj hpw
    simp only [List.foldl_cons, dedupStep]
    have hany : (acc.any (fun a => a.fullPath = s.fullPath)) = false := by
      rw [List.any_eq_false]
      intro a ha
      simp only [decide_eq_true_eq]
      exact hdisj s (by simp) a ha
    rw [hany]
    simp only [Bool.false_eq_true, if_neg, ite_false]
    rw [ih (acc ++ [s]) ?_ (List.pairwise_cons.mp hpw).2]
    · simp
    · intro x hx a ha
      rcases List.mem_append.mp ha with h1 | h1
      · exact hdisj x (by simp [hx]) a h1
      · simp only [List.mem_singleton] at h1
        subst h1
        exact (List.pairwise_cons.mp hpw).1 x hx

theorem dedupByPath_eq_self (l : List MergedItemSource)
    (h : l.Pairwise (fun a b => a.fullPath ≠ b.fullPath)) :
    dedupByPath l = l := by
  rw [dedupByPath_eq_foldl, dedupFold_eq_of_pairwise l [] (by simp) h]
  simp

theorem labelOf_mem_emitOne (i : MergedItemInfo) :
    ∀ v ∈ emitOne i, v.labelOf = i.name := by
  intro v hv
  simp only [emitOne] at hv
  split at hv
  · split at hv
    · simp only [List.mem_singleton] at hv
      subst hv
      rfl
    · simp at hv
  · split at hv
    · split at hv
      · rcases List.mem_cons.mp hv with h1 | h1
        · subst h1; rfl
        · rcases List.mem_map.mp h1 with ⟨s, _, he⟩
          subst he; rfl
      · split at hv
        · simp at hv
        · rcases List.mem_cons.mp hv with h1 | h1
          · subst h1; rfl
          · rcases List.mem_map.mp h1 with ⟨s, _, he⟩
            subst he; rfl
    · split at hv
      · simp only [List.mem_singleton] at hv
        subst hv
        rfl
      · simp at hv

theorem emitAll_filter (m : ItemMap) (hm : goodMap m) (n : String) :
    (emitAll m).filter (fun v => v.labelOf = n) =
      (match findInfo m n with
       | some v => emitOne v
       | none => []) := by
  induction m with
  | nil => rfl
  | cons kv rest ih =>
    obtain ⟨k, v⟩ := kv
    have hnd : (k :: rest.map Prod.fst).Nodup := by
      have := hm.1
      simpa using this
    have hrest : goodMap rest :=
      ⟨(List.nodup_cons.mp hnd).2, fun kv' h' => hm.2 kv' (by simp [h'])⟩
    have hvn : v.name = k := hm.2 (k, v) (by simp)
    simp only [emitAll, List.flatMap_cons, List.filter_append]
    by_cases hk : k = n
    · subst hk
      have h1 : (emitOne v).filter (fun x => x.labelOf = k) = emitOne v := by
        rw [List.filter_eq_self]
        intro a ha
        simp [labelOf_mem_emitOne v a ha, hvn]
      have h2 : findInfo rest k = none :=
        findInfo_eq_none_of_not_mem rest k (List.nodup_cons.mp hnd).1
      have h3 := ih hrest
      simp only [emitAll] at h3
      rw [h1, h3, h2]
      simp [findInfo]
    · have h1 : (emitOne v).filter (fun x => x.labelOf = n) = [] := by
        rw [List.filter_eq_nil_iff]
        intro a ha
        simp [labelOf_mem_emitOne v a ha, hvn, hk]
      have h3 := ih hrest
      simp only [emitAll] at h3
      rw [h1, h3]
      simp [findInfo, hk]

/-- Set (create or overwrite) a node. -/
def Fs.set (fs : Fs) (p : FsPath) (nd : FsNode) : Fs :=
  { fs with nodes := fun q => if q = p then some nd else fs.nodes q }

/-- Remove a node. -/
def Fs.del (fs : Fs) (p : FsPath) : Fs :=
  { fs with nodes := fun q => if q = p then none else fs.nodes q }

/-- The non-empty joined prefixes of a segment list (all ancestors of the
joined path, innermost last). -/
def segPrefixes (segs : List FsPath) : List FsPath :=
  (List.range segs.length).map (fun i => joinSegs (segs.take (i + 1)))

/-- `fsPromises.mkdir(dirPath, { recursive: true })`: create every absent
ancestor of `dirPath` as a directory, leaving existing nodes untouched.
(A real recursive mkdir fails when an existing non-directory blocks the
chain; that error path is surfaced through the commands' catch blocks
and is outside the runs the claims quantify over.) -/
def Fs.mkdirs (fs : Fs) (dirPath : FsPath) : Fs :=
  (segPrefixes (splitSeg dirPath)).foldl
    (fun f pre =>
      match f.nodes pre with
      | none => f.set pre FsNode.dir
      | some _ => f)
    fs

/-- `fsPromises.copyFile(src, tgt)`: write the source file's bytes to the
target.  (The commands stat the source as a regular file first, so the
fallback branch is unreachable in the flows modelled here.) -/
def copyFileFs (fs : Fs) (src tgt : FsPath) : Fs :=
  match fs.nodes src with
  | some (FsNode.file c) => fs.set tgt (FsNode.file c)
  | _ => fs

/-- `fsPromises.rename(src, tgt)`: move the source node to the target
(a rename onto the same path leaves the file in place, as POSIX does). -/
def renameFs (fs : Fs) (src tgt : FsPath) : Fs :=
  match fs.nodes src with
  | some nd => (fs.del src).set tgt nd
  | none => fs

/-- Copy versus move, the only difference among the four transfer
commands' final filesystem steps. -/
inductive TransferMode where
  | copy
  | move

/-- The shared tail of all four transfer commands (`copyToShadow`,
`moveToShadow`, `copyToWorkspace`, `moveToWorkspace` inline the same
sequence): check the target with `access`, ask for overwrite
confirmation when it exists, and on proceed ensure the target's parent
directory and perform the copy or rename.  Returns the new filesystem,
whether the confirmation prompt was shown, and whether the transfer was
performed. -/
def transferTail (mode : TransferMode) (fs : Fs) (src tgt : FsPath)
    (confirm : Bool) : Fs × Bool × Bool :=
  let targetExists := (fs.nodes tgt).isSome
  if targetExists && !confirm then (fs, true, false)
  else
    let fs1 := fs.mkdirs (pathDirname tgt)
    let fs2 :=
      match mode with
      | TransferMode.copy => copyFileFs fs1 src tgt
      | TransferMode.move => renameFs fs1 src tgt
    (fs2, targetExists, true)

/-- How a transfer command is invoked: a `ShadowFileItem`, a tree item
with `contextValue === 'workspaceFile'`, a raw URI, or anything else. -/
inductive SourceItemArg where
  | shadowFileItem (fullPath : FsPath) (projectPath : FsPath)
      (projectName : String)
  | workspaceFileItem (fullPath : FsPath)
  | uriArg (fsPath : FsPath)
  | invalidArg

/-- Source resolution shared by `copyToShadow` and `moveToShadow`
(identical inlined blocks): yields the source path, its base root path
and, when the source lives in a shadow project, that project's name.
`none` models the early error returns (including the
`!sourceUri || !sourceBasePath` guard, which JS truthiness also trips
for an empty base path). -/
def resolveCopyMoveSource (wr : Option FsPath) (projects : List ShadowProj)
    (arg : SourceItemArg) : Option (FsPath × FsPath × Option String) :=
  match arg with
  | .shadowFileItem fp pp pn => some (fp, pp, some pn)
  | .workspaceFileItem fp =>
    match wr with
    | some w => if w.isEmpty then none else some (fp, w, none)
    | none => none
  | .uriArg p =>
    match wr with
    | some w =>
      if !w.isEmpty && w.isPrefixOf p then some (p, w, none)
      else
        (projects.find? (fun q => q.path.isPrefixOf p)).map
          (fun q => (p, q.path, some q.name))
    | none =>
      (projects.find? (fun q => q.path.isPrefixOf p)).map
        (fun q => (p, q.path, some q.name))
  | .invalidArg => none

/-- Source resolution shared by `copyToWorkspace` and `moveToWorkspace`:
a `ShadowFileItem` carries its source; a raw URI is located in the first
shadow project for which `path.relative` yields a path that neither
starts with `..` nor is absolute. -/
def resolveWorkspaceTargetSource (projects : List ShadowProj)
    (arg : SourceItemArg) : Option (FsPath × FsPath × String) :=
  match arg with
  | .shadowFileItem fp pp pn => some (fp, pp, pn)
  | .uriArg p =>
    (projects.find?
      (fun q =>
        let relPath := pathRelative q.path p
        !(['.', '.'].isPrefixOf relPath) && !(pathIsAbsolute relPath))).map
      (fun q => (p, q.path, q.name))
  | _ => none

/-- Terminal status of a transfer command run. -/
inductive CmdOutcome where
  | invalidSource
  | statError
  | notAFile
  | noWorkspace
  | noTargetProjects
  | pickCancelled
  | selectedNotFound
  | overwriteDeclined
  | done
deriving DecidableEq, Repr

/-- Observable result of one transfer command run: final filesystem,
status, whether the overwrite prompt was shown, and the source/target
paths and selected project of the run (when the run got that far). -/
structure CmdResult where
  fs : Fs
  outcome : CmdOutcome
  askedOverwrite : Bool
  sourcePath : Option FsPath
  targetPath : Option FsPath
  selectedProject : Option ShadowProj

/-- A command result for a run that failed before reaching its target. -/
def earlyResult (fs : Fs) (o : CmdOutcome) (src : Option FsPath) : CmdResult :=
  ⟨fs, o, false, src, none, none⟩

/-- The `targetProjects` quick-pick candidates: every stored project
whose name differs from the source's shadow project name (when the
source is a workspace file, `sname` is `none` and no project is
filtered out — `p.name !== undefined` is always true). -/
def targetsOf (projects : List ShadowProj) (sname : Option String) :
    List ShadowProj :=
  projects.filter
    (fun p =>
      match sname with
      | some s => decide (p.name ≠ s)
      | none => true)

/-- The command result produced by a run that reached the transfer tail. -/
def tailResult (mode : TransferMode) (fs : Fs) (src tgt : FsPath)
    (confirm : Bool) (proj : Option ShadowProj) : CmdResult :=
  ⟨(transferTail mode fs src tgt confirm).1,
   if (transferTail mode fs src tgt confirm).2.2 then CmdOutcome.done
   else CmdOutcome.overwriteDeclined,
   (transferTail mode fs src tgt confirm).2.1, some src, some tgt, proj⟩

/-- The shared body of `copyToShadow` and `moveToShadow` after argument
extraction: stat-gate on regular files, compute the relative path,
filter the source project out of the stored projects, quick-pick a
target, rebase and run the transfer tail. -/
def toShadowCommand (mode : TransferMode) (wr : Option FsPath)
    (projects : List ShadowProj) (fs : Fs) (arg : SourceItemArg)
    (pick : Option String) (confirm : Bool) : CmdResult :=
  match resolveCopyMoveSource wr projects arg with
  | none => earlyResult fs CmdOutcome.invalidSource none
  | some (src, base, sname) =>
    match fs.nodes src with
    | none => earlyResult fs CmdOutcome.statError (some src)
    | some (FsNode.file _) =>
      if (targetsOf projects sname).isEmpty then
        earlyResult fs CmdOutcome.noTargetProjects (some src)
      else
        match pick with
        | none => earlyResult fs CmdOutcome.pickCancelled (some src)
        | some lbl =>
          match (targetsOf projects sname).find? (fun p => p.name = lbl) with
          | none => earlyResult fs CmdOutcome.selectedNotFound (some src)
          | some proj =>
            tailResult mode fs src (pathJoin proj.path (pathRelative base src))
              confirm (some proj)
    | some _ => earlyResult fs CmdOutcome.notAFile (some src)

/-- `shadow-project.copyToShadow`. -/
def copyToShadow (wr : Option FsPath) (projects : List ShadowProj) (fs : Fs)
    (arg : SourceItemArg) (pick : Option String) (confirm : Bool) : CmdResult :=
  toShadowCommand TransferMode.copy wr projects fs arg pick confirm

/-- `shadow-project.moveToShadow`. -/
def moveToShadow (wr : Option FsPath) (projects : List ShadowProj) (fs : Fs)
    (arg : SourceItemArg) (pick : Option String) (confirm : Bool) : CmdResult :=
  toShadowCommand TransferMode.move wr projects fs arg pick confirm

/-- The shared body of `copyToWorkspace` and `moveToWorkspace`: resolve
the shadow source, require a workspace root (JS truthiness: unset or
empty fails), stat-gate on regular files, rebase onto the workspace root
and run the transfer tail. -/
def toWorkspaceCommand (mode : TransferMode) (wr : Option FsPath)
    (projects : List ShadowProj) (fs : Fs) (arg : SourceItemArg)
    (confirm : Bool) : CmdResult :=
  match resolveWorkspaceTargetSource projects arg with
  | none => earlyResult fs CmdOutcome.invalidSource none
  | some (src, base, _) =>
    match wr with
    | none => earlyResult fs CmdOutcome.noWorkspace none
    | some w =>
      if w.isEmpty then earlyResult fs CmdOutcome.noWorkspace none
      else
        match fs.nodes src with
        | none => earlyResult fs CmdOutcome.statError (some src)
        | some (FsNode.file _) =>
          tailResult mode fs src (pathJoin w (pathRelative base src))
            confirm none
        | some _ => earlyResult fs CmdOutcome.notAFile (some src)

/-- `shadow-project.copyToWorkspace`. -/
def copyToWorkspace (wr : Option FsPath) (projects : List ShadowProj)
    (fs : Fs) (arg : SourceItemArg) (confirm : Bool) : CmdResult :=
  toWorkspaceCommand TransferMode.copy wr projects fs arg confirm

/-- `shadow-project.moveToWorkspace`. -/
def moveToWorkspace (wr : Option FsPath) (projects : List ShadowProj)
    (fs : Fs) (arg : SourceItemArg) (confirm : Bool) : CmdResult :=
  toWorkspaceCommand TransferMode.move wr projects fs arg confirm

theorem isPrefixOf_self_append (w s : FsPath) : w.isPrefixOf (w ++ s) = true := by
  induction w with
  | nil => simp [List.isPrefixOf]
  | cons c cs ih => simp [List.isPrefixOf, ih]

theorem find?_append_of_none {α} (pred : α → Bool) :
    ∀ (l1 : List α) (p : α) (l2 : List α),
      (∀ q ∈ l1, pred q = false) → pred p = true →
      (l1 ++ p :: l2).find? pred = some p := by
  intro l1
  induction l1 with
  | nil =>
    intro p l2 _ hp
    simp [List.find?_cons_of_pos, hp]
  | cons q qs ih =>
    intro p l2 h hp
    have hq : pred q = false := h q (by simp)
    simp only [List.cons_append]
    rw [List.find?_cons_of_neg _ (by simp [hq])]
    exact ih p l2 (fun r hr => h r (by simp [hr])) hp

theorem classifyDirPath_workspace_of (st : ProviderState) (d w : FsPath)
    (hw : st.workspaceRoot = some w) (hne : w.isEmpty = false)
    (hp : w.isPrefixOf d = true) :
    classifyDirPath st d = some ⟨w, d, WORKSPACE_ID, true⟩ := by
  simp [classifyDirPath, hw, hne, hp]

theorem classifyDirPath_shadow_of (st : ProviderState) (d : FsPath)
    (l1 : List ShadowProj) (p : ShadowProj) (l2 : List ShadowProj)
    (hsp : st.shadowProjects = l1 ++ p :: l2)
    (hws : ∀ w, st.workspaceRoot = some w →
      (w.isEmpty || !(w.isPrefixOf d)) = true)
    (hl1 : ∀ q ∈ l1, q.path.isPrefixOf d = false)
    (hp : p.path.isPrefixOf d = true) :
    classifyDirPath st d = some ⟨p.path, d, p.name, false⟩ := by
  have hshadow : classifyShadow st d = some ⟨p.path, d, p.name, false⟩ := by
    unfold classifyShadow
    rw [hsp, find?_append_of_none _ l1 p l2 hl1 hp]
    rfl
  cases hwr : st.workspaceRoot with
  | none => simp [classifyDirPath, hwr, hshadow]
  | some w =>
    have hor := hws w hwr
    have hcond : (!w.isEmpty && w.isPrefixOf d) = false := by
      cases hie : w.isEmpty
      · rw [hie] at hor
        simp only [Bool.false_or, Bool.not_eq_true'] at hor
        simp [hor]
      · simp [hie]
    simp [classifyDirPath, hwr, hcond, hshadow]

/-- Claim C3, counterexample to its boundary-awareness part: with the
workspace root `/ws`, classification of `/ws2/x` — for which `/ws` is a
strict prefix NOT followed by a path separator — nevertheless matches
the workspace root, because the source tests plain `startsWith`.  The
claim says such a root must never match. -/
theorem c3_boundary_counterexample :
    classifyDirPath
        ⟨some "/ws".toList, [⟨"lib", "/lib".toList⟩], none, fun _ => none⟩
        "/ws2/x".toList =
      some ⟨"/ws".toList, "/ws2/x".toList, WORKSPACE_ID, true⟩ ∧
    "/ws".toList ≠ "/ws2/x".toList ∧
    ("/ws".toList).isPrefixOf "/ws2/x".toList = true ∧
    ("/ws".toList ++ ['/']).isPrefixOf "/ws2/x".toList = false := by
  refine ⟨?_, by decide, by decide, by decide⟩
  rfl

/-- Claim C3 (amended): determining which root owns an absolute path
tests the primary (workspace) root first, then each shadow project in
registry order, first match winning; containment is a plain string
prefix test (`startsWith`), which is NOT boundary-aware: a root whose
path is a strict prefix of the query not followed by a separator also
matches.  The four conjuncts cover workspace priority, first shadow
match, plain-prefix (non-boundary) matching, and the identical URI
resolution in `copyToShadow`/`moveToShadow`. -/
theorem c3_classify_first_match_plain_prefix :
    (∀ (st : ProviderState) (d w : FsPath), st.workspaceRoot = some w →
      w.isEmpty = false → w.isPrefixOf d = true →
      classifyDirPath st d = some ⟨w, d, WORKSPACE_ID, true⟩) ∧
    (∀ (st : ProviderState) (d : FsPath) (l1 : List ShadowProj)
      (p : ShadowProj) (l2 : List ShadowProj),
      st.shadowProjects = l1 ++ p :: l2 →
      (∀ w, st.workspaceRoot = some w →
        (w.isEmpty || !(w.isPrefixOf d)) = true) →
      (∀ q ∈ l1, q.path.isPrefixOf d = false) → p.path.isPrefixOf d = true →
      classifyDirPath st d = some ⟨p.path, d, p.name, false⟩) ∧
    (∀ (st : ProviderState) (w tail : FsPath), st.workspaceRoot = some w →
      w.isEmpty = false →
      classifyDirPath st (w ++ tail) = some ⟨w, w ++ tail, WORKSPACE_ID, true⟩) ∧
    (∀ (wr : Option FsPath) (projects : List ShadowProj) (w p : FsPath),
      wr = some w → w.isEmpty = false → w.isPrefixOf p = true →
      resolveCopyMoveSource wr projects (SourceItemArg.uriArg p) =
        some (p, w, none)) := by
  refine ⟨?_, ?_, ?_, ?_⟩
  · exact classifyDirPath_workspace_of
  · exact classifyDirPath_shadow_of
  · intro st w tail hw hne
    exact classifyDirPath_workspace_of st (w ++ tail) w hw hne
      (isPrefixOf_self_append w tail)
  · intro wr projects w p hwr hne hp
    simp [resolveCopyMoveSource, hwr, hne, hp]

/-- Concrete instantiation of the amended C3 theorem: workspace priority
on a boundary-respecting query, and first-shadow match without a
workspace root. -/
theorem c3_classify_witness :
    classifyDirPath
        ⟨some "/ws".toList, [⟨"lib", "/lib".toList⟩], none, fun _ => none⟩
        "/ws/src".toList =
      some ⟨"/ws".toList, "/ws/src".toList, WORKSPACE_ID, true⟩ ∧
    classifyDirPath
        ⟨none, [⟨"a", "/a".toList⟩, ⟨"b", "/b".toList⟩], none, fun _ => none⟩
        "/b/x".toList =
      some ⟨"/b".toList, "/b/x".toList, "b", false⟩ := by
  constructor
  · exact c3_classify_first_match_plain_prefix.1 _ _ _ rfl (by decide) (by decide)
  · exact c3_classify_first_match_plain_prefix.2.1 _ _ [⟨"a", "/a".toList⟩]
      ⟨"b", "/b".toList⟩ [] rfl (fun w hw => nomatch hw) (by decide) (by decide)

/-- Claim C4, counterexample: with workspace root `/ws` and the shadow
project `s2` at `/ws2`, rebasing the relative path `f` onto `s2` gives
`/ws2/f`, which classification attributes to the workspace root (its
path is a string prefix), recovering the relative path `../ws2/f` — not
the pair `(s2, f)` the claim requires for every root. -/
theorem c4_counterexample :
    classifyAbs ⟨some "/ws".toList, [⟨"s2", "/ws2".toList⟩], none, fun _ => none⟩
        (rebase "f".toList "/ws2".toList) =
      some (⟨WORKSPACE_ID, "/ws".toList, true⟩, "../ws2/f".toList) ∧
    classifyAbs ⟨some "/ws".toList, [⟨"s2", "/ws2".toList⟩], none, fun _ => none⟩
        (rebase "f".toList "/ws2".toList) ≠
      some (⟨"s2", "/ws2".toList, false⟩, "f".toList) := by
  constructor
  · rfl
  · decide

/-- Claim C4 (amended): `classify(rebase(P, R)) = (R, P)` holds for the
primary (workspace) root whenever it is set and non-empty, and for an
overlay root provided no earlier root in the search order (the workspace
root, then the preceding overlay roots in registry order) has a path
that is a string prefix of the rebased path — the counterexample shows
the inverse fails without that proviso. -/
theorem c4_classify_rebase_inverse_amended :
    (∀ (st : ProviderState) (w rel : FsPath), st.workspaceRoot = some w →
      w.isEmpty = false →
      classifyAbs st (rebase rel w) = some (⟨WORKSPACE_ID, w, true⟩, rel)) ∧
    (∀ (st : ProviderState) (l1 : List ShadowProj) (p : ShadowProj)
      (l2 : List ShadowProj) (rel : FsPath),
      st.shadowProjects = l1 ++ p :: l2 →
      (∀ w, st.workspaceRoot = some w →
        (w.isEmpty || !(w.isPrefixOf (rebase rel p.path))) = true) →
      (∀ q ∈ l1, q.path.isPrefixOf (rebase rel p.path) = false) →
      classifyAbs st (rebase rel p.path) =
        some (⟨p.name, p.path, false⟩, rel)) := by
  constructor
  · intro st w rel hw hne
    unfold classifyAbs rebase
    rw [classifyDirPath_workspace_of st (pathJoin w rel) w hw hne
      (isPrefixOf_self_append w ('/' :: rel))]
    simp [pathRelative_pathJoin]
  · intro st l1 p l2 rel hsp hws hl1
    unfold classifyAbs rebase
    rw [classifyDirPath_shadow_of st (pathJoin p.path rel) l1 p l2 hsp hws hl1
      (isPrefixOf_self_append p.path ('/' :: rel))]
    simp [pathRelative_pathJoin]

/-- Concrete instantiation of the amended C4 theorem: the inverse law on
the workspace root and on a shadow root with no earlier prefix match. -/
theorem c4_classify_rebase_witness :
    classifyAbs ⟨some "/ws".toList, [⟨"lib", "/lib".toList⟩], none, fun _ => none⟩
        (rebase "src/a.txt".toList "/ws".toList) =
      some (⟨WORKSPACE_ID, "/ws".toList, true⟩, "src/a.txt".toList) ∧
    classifyAbs ⟨some "/ws".toList, [⟨"lib", "/lib".toList⟩], none, fun _ => none⟩
        (rebase "src/a.txt".toList "/lib".toList) =
      some (⟨"lib", "/lib".toList, false⟩, "src/a.txt".toList) := by
  constructor
  · exact c4_classify_rebase_inverse_amended.1 _ _ _ rfl (by decide)
  · exact c4_classify_rebase_inverse_amended.2 _ [] ⟨"lib", "/lib".toList⟩ []
      _ rfl (by intro w hw; cases hw; decide) (by decide)

theorem processPair_empty (st : ProviderState) (fs : Fs) (m : ItemMap)
    (pr : ScanPair) (h : readDirectory fs pr.readPath = []) :
    processPair st fs m pr = m := by
  unfold processPair
  rw [h]
  rfl

theorem buildMap_drop (st : ProviderState) (fs : Fs) (l1 : List ScanPair)
    (pr : ScanPair) (l2 : List ScanPair)
    (h : readDirectory fs pr.readPath = []) :
    buildMap st fs (l1 ++ pr :: l2) = buildMap st fs (l1 ++ l2) := by
  unfold buildMap
  rw [List.foldl_append, List.foldl_append, List.foldl_cons,
    processPair_empty st fs _ pr h]

/-- Claim C6: `getChildren` never propagates a scan failure (in the
embedding every operation is total because `readDirectory` catches all
listing errors and returns `[]`): a directory whose listing raises an
I/O error, or is absent, contributes nothing, and the result equals the
result of the same call without that scan pair — every other root's
contribution is preserved; moreover an absent directory yields an empty
entry set rather than an error. -/
theorem c6_fault_isolation :
    (∀ (st : ProviderState) (fs : Fs) (l1 : List ScanPair) (pr : ScanPair)
      (l2 : List ScanPair), fs.readDirRaw pr.readPath = ScanOutcome.ioError →
      computeFromPairs st fs (l1 ++ pr :: l2) =
        computeFromPairs st fs (l1 ++ l2)) ∧
    (∀ (st : ProviderState) (fs : Fs) (l1 : List ScanPair) (pr : ScanPair)
      (l2 : List ScanPair), fs.readDirRaw pr.readPath = ScanOutcome.absent →
      computeFromPairs st fs (l1 ++ pr :: l2) =
        computeFromPairs st fs (l1 ++ l2)) ∧
    (∀ (fs : Fs) (p : FsPath), fs.readDirRaw p = ScanOutcome.absent →
      readDirectory fs p = []) := by
  refine ⟨?_, ?_, ?_⟩
  · intro st fs l1 pr l2 h
    unfold computeFromPairs
    rw [buildMap_drop st fs l1 pr l2 (by simp [readDirectory, h])]
  · intro st fs l1 pr l2 h
    unfold computeFromPairs
    rw [buildMap_drop st fs l1 pr l2 (by simp [readDirectory, h])]
  · intro fs p h
    simp [readDirectory, h]

/-- Concrete instantiation of C6: one root's listing fails with an I/O
error while another root still contributes its entries — the failing
root is simply dropped. -/
theorem c6_fault_isolation_witness :
    computeFromPairs
        ⟨some "/ws".toList, [⟨"lib", "/lib".toList⟩], none, fun _ => none⟩
        ⟨fun _ => none,
         fun p => if p = "/ws".toList then ScanOutcome.ioError
           else ScanOutcome.ok [("a.txt", FileType.file)]⟩
        ([] ++ (⟨"/ws".toList, "/ws".toList, WORKSPACE_ID, true⟩ : ScanPair) ::
          [⟨"/lib".toList, "/lib".toList, "lib", false⟩]) =
      computeFromPairs
        ⟨some "/ws".toList, [⟨"lib", "/lib".toList⟩], none, fun _ => none⟩
        ⟨fun _ => none,
         fun p => if p = "/ws".toList then ScanOutcome.ioError
           else ScanOutcome.ok [("a.txt", FileType.file)]⟩
        ([] ++ [⟨"/lib".toList, "/lib".toList, "lib", false⟩]) := by
  exact c6_fault_isolation.1 _ _ [] _ _ (by decide)

theorem mem_survivors (st : ProviderState) (fs : Fs) (pr : ScanPair)
    (t : STriple) :
    t ∈ survivors st fs pr ↔
      ∃ e ∈ readDirectory fs pr.readPath, skipsEntry st pr e.1 e.2 = false ∧
        t = (pr.isWorkspace, e.1, sourceOfEntry pr e.1 e.2) := by
  simp only [survivors, List.mem_filterMap]
  constructor
  · rintro ⟨e, he, hf⟩
    cases hskip : skipsEntry st pr e.1 e.2
    · rw [hskip] at hf
      simp only [Bool.false_eq_true, if_neg, ite_false, Option.some_inj] at hf
      exact ⟨e, he, hskip, hf.symm⟩
    · rw [hskip] at hf
      simp at hf
  · rintro ⟨e, he, hskip, ht⟩
    exact ⟨e, he, by rw [hskip]; simp [ht]⟩

theorem survivor_fullPath (st : ProviderState) (fs : Fs)
    (pairs : List ScanPair) (t : STriple) (h : t ∈ allSurvivors st fs pairs) :
    ∃ pr ∈ pairs, ∃ e ∈ readDirectory fs pr.readPath,
      skipsEntry st pr e.1 e.2 = false ∧
      t.2.2.fullPath = pathJoin pr.readPath e.1.toList := by
  rcases List.mem_flatMap.mp h with ⟨pr, hpr, ht⟩
  rcases (mem_survivors st fs pr t).mp ht with ⟨e, he, hskip, hte⟩
  exact ⟨pr, hpr, e, he, hskip, by rw [hte]; rfl⟩

theorem directoryPaths_subset (i : MergedItemInfo) (q : FsPath)
    (h : q ∈ i.directoryPaths) :
    (∃ s, i.workspaceSource = some s ∧ s.fullPath = q) ∨
      ∃ s ∈ i.shadowSources, s.fullPath = q := by
  have haux : ∀ (l : List MergedItemSource) (acc : List FsPath),
      q ∈ l.foldl dirStep acc →
      q ∈ acc ∨ ∃ s ∈ l, s.fullPath = q := by
    intro l
    induction l with
    | nil => intro acc h; exact Or.inl h
    | cons s ls ih =>
      intro acc h
      simp only [List.foldl_cons] at h
      rcases ih _ h with h1 | ⟨u, hu, he⟩
      · simp only [dirStep] at h1
        split at h1
        · split at h1
          · exact Or.inl h1
          · rcases List.mem_append.mp h1 with h2 | h2
            · exact Or.inl h2
            · simp only [List.mem_singleton] at h2
              exact Or.inr ⟨s, by simp, h2.symm⟩
        · exact Or.inl h1
      · exact Or.inr ⟨u, by simp [hu], he⟩
  unfold MergedItemInfo.directoryPaths at h
  rcases haux _ _ h with h1 | h2
  · left
    cases hws : i.workspaceSource with
    | none =>
      rw [hws] at h1
      exact absurd h1 (List.not_mem_nil q)
    | some s =>
      rw [hws] at h1
      have h1' : q ∈ (if s.fileType = FileType.directory then [s.fullPath]
          else []) := h1
      split at h1'
      · simp only [List.mem_singleton] at h1'
        exact ⟨s, rfl, h1'.symm⟩
      · exact absurd h1' (List.not_mem_nil q)
  · exact Or.inr h2

theorem emitOne_paths_subset (i : MergedItemInfo) (v : VNode)
    (hv : v ∈ emitOne i) (q : FsPath) (hq : q ∈ v.nodePaths) :
    (∃ s, i.workspaceSource = some s ∧ s.fullPath = q) ∨
      ∃ s ∈ i.shadowSources, s.fullPath = q := by
  simp only [emitOne] at hv
  split at hv
  · split at hv
    · simp only [List.mem_singleton] at hv
      subst hv
      exact directoryPaths_subset i q hq
    · simp at hv
  · split at hv
    · cases hws : i.workspaceSource with
      | some ws =>
        rw [hws] at hv
        rcases List.mem_cons.mp hv with h1 | h1
        · subst h1
          simp only [VNode.nodePaths, List.mem_singleton] at hq
          exact Or.inl ⟨ws, rfl, hq.symm⟩
        · rcases List.mem_map.mp h1 with ⟨s, hs, he⟩
          subst he
          simp only [VNode.nodePaths, List.mem_singleton] at hq
          exact Or.inr ⟨s, hs, hq.symm⟩
      | none =>
        rw [hws] at hv
        cases hsh : i.shadowSources with
        | nil =>
          rw [hsh] at hv
          exact absurd hv (List.not_mem_nil v)
        | cons first rest =>
          rw [hsh] at hv
          rcases List.mem_cons.mp hv with h1 | h1
          · subst h1
            simp only [VNode.nodePaths, List.mem_singleton] at hq
            exact Or.inr ⟨first, by simp, hq.symm⟩
          · rcases List.mem_map.mp h1 with ⟨s, hs, he⟩
            subst he
            simp only [VNode.nodePaths, List.mem_singleton] at hq
            exact Or.inr ⟨s, by simp [hs], hq.symm⟩
    · split at hv
      all_goals try exact absurd hv (List.not_mem_nil v)
      simp only [List.mem_singleton] at hv
      subst hv
      simp only [VNode.nodePaths] at hq
      cases hws : i.workspaceSource with
      | some s =>
        rw [hws] at hq
        have hq' : q ∈ [s.fullPath] := hq
        simp only [List.mem_singleton] at hq'
        exact Or.inl ⟨s, rfl, hq'.symm⟩
      | none =>
        rw [hws] at hq
        cases hsh : i.shadowSources with
        | nil =>
          rw [hsh] at hq
          have hq' : q ∈ ([] : List FsPath) := hq
          exact absurd hq' (List.not_mem_nil q)
        | cons s0 rest =>
          rw [hsh] at hq
          have hq' : q ∈ [s0.fullPath] := hq
          simp only [List.mem_singleton] at hq'
          exact Or.inr ⟨s0, by simp, hq'.symm⟩

/-- Claim C5: if every scanned occurrence of an absolute path F is
skipped — in particular when the owning root's ignore predicate matches
the entry's root-relative path, with a trailing separator appended for
directories (`skipsEntry` is exactly the scan loop's skip condition) —
then F appears nowhere in the `getChildren` result: not among any merged
directory's source paths nor as any file or unknown item's path.  The
claim's scenario (root R's predicate matching P, other roots free to
have entries at P) is the instance F = R's scanned directory joined with
the entry name, since other roots' entries at P carry different absolute
paths. -/
theorem c5_ignore_exclusion (st : ProviderState) (fs : Fs)
    (pairs : List ScanPair) (F : FsPath)
    (h : ∀ pr ∈ pairs, ∀ e ∈ readDirectory fs pr.readPath,
      pathJoin pr.readPath e.1.toList = F → skipsEntry st pr e.1 e.2 = true) :
    ∀ v ∈ computeFromPairs st fs pairs, F ∉ v.nodePaths := by
  intro v hv hF
  have hsurv : ∀ t ∈ allSurvivors st fs pairs, t.2.2.fullPath ≠ F := by
    intro t ht he
    rcases survivor_fullPath st fs pairs t ht with ⟨pr, hpr, e, heent, hskip, hfp⟩
    have htrue := h pr hpr e heent (by rw [← hfp]; exact he)
    rw [hskip] at htrue
    exact Bool.false_ne_true htrue
  unfold computeFromPairs at hv
  rw [buildMap_eq_buildTriples] at hv
  have hv' := (mem_sortItems v _).mp hv
  rcases List.mem_flatMap.mp hv' with ⟨kv, hkv, hve⟩
  have hg := goodMap_buildTriples (allSurvivors st fs pairs)
  have hfind := findInfo_of_mem _ kv hg hkv
  rw [findInfo_buildTriples] at hfind
  by_cases hany :
      ((allSurvivors st fs pairs).any (fun t => t.2.1 = kv.1)) = true
  · rw [if_pos hany] at hfind
    have hkv2 : kv.2 =
        ⟨kv.1, wsSrcAfter (allSurvivors st fs pairs) kv.1,
          dedupByPath (shSrcsOf (allSurvivors st fs pairs) kv.1)⟩ :=
      (Option.some_inj.mp hfind).symm
    rcases emitOne_paths_subset kv.2 v hve F hF with ⟨s, hws, hsp⟩ | ⟨s, hs, hsp⟩
    · rw [hkv2] at hws
      rcases wsSrcAfter_mem _ kv.1 s hws with ⟨t, ht, _, hts⟩
      exact hsurv t ht (by rw [hts]; exact hsp)
    · rw [hkv2] at hs
      have hs' := dedupByPath_subset _ s hs
      rcases (mem_shSrcsOf _ kv.1 s).mp hs' with ⟨t, ht, _, hts⟩
      exact hsurv t ht (by rw [hts]; exact hsp)
  · rw [if_neg hany] at hfind
    cases hfind

/-- Concrete instantiation of C5: the workspace's ignore file excludes
`b.txt`; `/ws/b.txt` is absent from the result even though the shadow
project `lib` contributes entries (including its own `b.txt`, which is a
different absolute path and remains visible). -/
theorem c5_ignore_exclusion_witness :
    "/ws/b.txt".toList ∉
      (VNode.shadowFile "b.txt"
        ⟨"lib", "/lib".toList, "/lib/b.txt".toList, FileType.file⟩).nodePaths :=
  c5_ignore_exclusion
    ⟨some "/ws".toList, [⟨"lib", "/lib".toList⟩],
      some (fun p => p = "b.txt".toList), fun _ => none⟩
    ⟨fun _ => none,
     fun p =>
       if p = "/ws".toList then ScanOutcome.ok [("b.txt", FileType.file)]
       else ScanOutcome.ok [("a.txt", FileType.file), ("b.txt", FileType.file)]⟩
    [⟨"/ws".toList, "/ws".toList, WORKSPACE_ID, true⟩,
     ⟨"/lib".toList, "/lib".toList, "lib", false⟩]
    "/ws/b.txt".toList
    (by decide)
    (VNode.shadowFile "b.txt"
      ⟨"lib", "/lib".toList, "/lib/b.txt".toList, FileType.file⟩)
    (by decide)

theorem mkdirs_preserves (fs : Fs) (d p : FsPath) (v : FsNode)
    (h : fs.nodes p = some v) : (fs.mkdirs d).nodes p = some v := by
  unfold Fs.mkdirs
  have haux : ∀ (l : List FsPath) (f : Fs), f.nodes p = some v →
      (l.foldl
        (fun f pre =>
          match f.nodes pre with
          | none => f.set pre FsNode.dir
          | some _ => f) f).nodes p = some v := by
    intro l
    induction l with
    | nil => intro f hf; exact hf
    | cons pre rest ih =>
      intro f hf
      simp only [List.foldl_cons]
      apply ih
      cases hpre : f.nodes pre with
      | none =>
        simp only [Fs.set]
        have hne : p ≠ pre := by
          intro he
          rw [he, hpre] at hf
          cases hf
        simp [hne, hf]
      | some _ => exact hf
  exact haux _ fs h

theorem transferTail_gate (mode : TransferMode) (fs : Fs) (src tgt : FsPath)
    (confirm : Bool) (hex : (fs.nodes tgt).isSome = true) :
    (transferTail mode fs src tgt confirm).2.1 = true ∧
      (confirm = false → (transferTail mode fs src tgt confirm).1 = fs) := by
  unfold transferTail
  cases confirm
  · simp [hex]
  · simp [hex]

theorem transferTail_perform (mode : TransferMode) (fs : Fs)
    (src tgt : FsPath) (confirm : Bool) (c : String)
    (hproceed : (transferTail mode fs src tgt confirm).2.2 = true)
    (hsrc : fs.nodes src = some (FsNode.file c)) :
    (mode = TransferMode.copy →
      (transferTail mode fs src tgt confirm).1.nodes tgt =
        some (FsNode.file c) ∧
      (transferTail mode fs src tgt confirm).1.nodes src =
        some (FsNode.file c)) ∧
    (mode = TransferMode.move → src ≠ tgt →
      (transferTail mode fs src tgt confirm).1.nodes tgt =
        some (FsNode.file c) ∧
      (transferTail mode fs src tgt confirm).1.nodes src = none) := by
  simp only [transferTail] at hproceed ⊢
  by_cases hgate : ((fs.nodes tgt).isSome && !confirm) = true
  · rw [if_pos hgate] at hproceed
    simp at hproceed
  · rw [if_neg hgate] at hproceed ⊢
    have hsrc1 : (fs.mkdirs (pathDirname tgt)).nodes src =
        some (FsNode.file c) :=
      mkdirs_preserves fs (pathDirname tgt) src (FsNode.file c) hsrc
    constructor
    · intro hmode
      subst hmode
      simp only [copyFileFs, hsrc1, Fs.set]
      constructor
      · simp
      · by_cases hst : src = tgt
        · simp [hst]
        · simp [hst, hsrc1]
    · intro hmode hne
      subst hmode
      simp only [renameFs, hsrc1, Fs.set, Fs.del]
      constructor
      · simp
      · simp [hne]

theorem toShadowCommand_shape (mode : TransferMode) (wr : Option FsPath)
    (projects : List ShadowProj) (fs : Fs) (arg : SourceItemArg)
    (pick : Option String) (confirm : Bool) :
    (∃ o osrc, o ≠ CmdOutcome.done ∧
      toShadowCommand mode wr projects fs arg pick confirm =
        earlyResult fs o osrc) ∨
    (∃ src base sname lbl proj,
      resolveCopyMoveSource wr projects arg = some (src, base, sname) ∧
      pick = some lbl ∧
      (targetsOf projects sname).find? (fun p => p.name = lbl) = some proj ∧
      toShadowCommand mode wr projects fs arg pick confirm =
        tailResult mode fs src (pathJoin proj.path (pathRelative base src))
          confirm (some proj)) := by
  cases hres : resolveCopyMoveSource wr projects arg with
  | none =>
    refine Or.inl ⟨CmdOutcome.invalidSource, none, by decide, ?_⟩
    simp [toShadowCommand, hres]
  | some tri =>
    obtain ⟨src, base, sname⟩ := tri
    cases hnode : fs.nodes src with
    | none =>
      refine Or.inl ⟨CmdOutcome.statError, some src, by decide, ?_⟩
      simp [toShadowCommand, hres, hnode]
    | some k =>
      cases k with
      | dir =>
        refine Or.inl ⟨CmdOutcome.notAFile, some src, by decide, ?_⟩
        simp [toShadowCommand, hres, hnode]
      | other =>
        refine Or.inl ⟨CmdOutcome.notAFile, some src, by decide, ?_⟩
        simp [toShadowCommand, hres, hnode]
      | file c =>
        by_cases hemp : ((targetsOf projects sname).isEmpty) = true
        · refine Or.inl ⟨CmdOutcome.noTargetProjects, some src, by decide, ?_⟩
          simp [toShadowCommand, hres, hnode, hemp]
        · cases pick with
          | none =>
            refine Or.inl ⟨CmdOutcome.pickCancelled, some src, by decide, ?_⟩
            simp [toShadowCommand, hres, hnode, hemp]
          | some lbl =>
            cases hfind :
                (targetsOf projects sname).find? (fun p => p.name = lbl) with
            | none =>
              refine Or.inl ⟨CmdOutcome.selectedNotFound, some src, by decide, ?_⟩
              simp [toShadowCommand, hres, hnode, hemp, hfind]
            | some proj =>
              refine Or.inr ⟨src, base, sname, lbl, proj, rfl, rfl, hfind, ?_⟩
              simp [toShadowCommand, hres, hnode, hemp, hfind]

theorem toWorkspaceCommand_shape (mode : TransferMode) (wr : Option FsPath)
    (projects : List ShadowProj) (fs : Fs) (arg : SourceItemArg)
    (confirm : Bool) :
    (∃ o osrc, o ≠ CmdOutcome.done ∧
      toWorkspaceCommand mode wr projects fs arg confirm =
        earlyResult fs o osrc) ∨
    (∃ src base pn w,
      resolveWorkspaceTargetSource projects arg = some (src, base, pn) ∧
      wr = some w ∧ w.isEmpty = false ∧
      toWorkspaceCommand mode wr projects fs arg confirm =
        tailResult mode fs src (pathJoin w (pathRelative base src))
          confirm none) := by
  cases hres : resolveWorkspaceTargetSource projects arg with
  | none =>
    refine Or.inl ⟨CmdOutcome.invalidSource, none, by decide, ?_⟩
    simp [toWorkspaceCommand, hres]
  | some tri =>
    obtain ⟨src, base, pn⟩ := tri
    cases wr with
    | none =>
      refine Or.inl ⟨CmdOutcome.noWorkspace, none, by decide, ?_⟩
      simp [toWorkspaceCommand, hres]
    | some w =>
      by_cases hie : w.isEmpty = true
      · refine Or.inl ⟨CmdOutcome.noWorkspace, none, by decide, ?_⟩
        simp [toWorkspaceCommand, hres, hie]
      · cases hnode : fs.nodes src with
        | none =>
          refine Or.inl ⟨CmdOutcome.statError, some src, by decide, ?_⟩
          simp [toWorkspaceCommand, hres, hie, hnode]
        | some k =>
          cases k with
          | dir =>
            refine Or.inl ⟨CmdOutcome.notAFile, some src, by decide, ?_⟩
            simp [toWorkspaceCommand, hres, hie, hnode]
          | other =>
            refine Or.inl ⟨CmdOutcome.notAFile, some src, by decide, ?_⟩
            simp [toWorkspaceCommand, hres, hie, hnode]
          | file c =>
            refine Or.inr ⟨src, base, pn, w, rfl, rfl,
              Bool.not_eq_true w.isEmpty ▸ hie, ?_⟩
            simp [toWorkspaceCommand, hres, hie, hnode]

theorem toShadowCommand_gate (mode : TransferMode) (wr : Option FsPath)
    (projects : List ShadowProj) (fs : Fs) (arg : SourceItemArg)
    (pick : Option String) (confirm : Bool) (t : FsPath)
    (ht : (toShadowCommand mode wr projects fs arg pick confirm).targetPath =
      some t)
    (hex : (fs.nodes t).isSome = true) :
    (toShadowCommand mode wr projects fs arg pick confirm).askedOverwrite =
      true ∧
    (confirm = false →
      (toShadowCommand mode wr projects fs arg pick confirm).fs = fs) := by
  rcases toShadowCommand_shape mode wr projects fs arg pick confirm with
    ⟨o, osrc, _, he⟩ | ⟨src, base, sname, lbl, proj, hres, hpick, hfind, he⟩
  · rw [he] at ht
    simp [earlyResult] at ht
  · rw [he] at ht ⊢
    simp only [tailResult] at ht ⊢
    obtain rfl := Option.some_inj.mp ht
    exact transferTail_gate mode fs src _ confirm hex

theorem toWorkspaceCommand_gate (mode : TransferMode) (wr : Option FsPath)
    (projects : List ShadowProj) (fs : Fs) (arg : SourceItemArg)
    (confirm : Bool) (t : FsPath)
    (ht : (toWorkspaceCommand mode wr projects fs arg confirm).targetPath =
      some t)
    (hex : (fs.nodes t).isSome = true) :
    (toWorkspaceCommand mode wr projects fs arg confirm).askedOverwrite =
      true ∧
    (confirm = false →
      (toWorkspaceCommand mode wr projects fs arg confirm).fs = fs) := by
  rcases toWorkspaceCommand_shape mode wr projects fs arg confirm with
    ⟨o, osrc, _, he⟩ | ⟨src, base, pn, w, hres, hwr, hwne, he⟩
  · rw [he] at ht
    simp [earlyResult] at ht
  · rw [he] at ht ⊢
    simp only [tailResult] at ht ⊢
    obtain rfl := Option.some_inj.mp ht
    exact transferTail_gate mode fs src _ confirm hex

/-- Claim C7: whenever any of the four transfer commands reaches its
computed target path and an entry already exists there, the overwrite
confirmation prompt is shown, and a declined confirmation leaves the
filesystem exactly as before — no directory creation, no copy, no
rename. -/
theorem c7_overwrite_gate :
    (∀ (wr : Option FsPath) (projects : List ShadowProj) (fs : Fs)
      (arg : SourceItemArg) (pick : Option String) (confirm : Bool)
      (t : FsPath),
      (copyToShadow wr projects fs arg pick confirm).targetPath = some t →
      (fs.nodes t).isSome = true →
      (copyToShadow wr projects fs arg pick confirm).askedOverwrite = true ∧
        (confirm = false →
          (copyToShadow wr projects fs arg pick confirm).fs = fs)) ∧
    (∀ (wr : Option FsPath) (projects : List ShadowProj) (fs : Fs)
      (arg : SourceItemArg) (pick : Option String) (confirm : Bool)
      (t : FsPath),
      (moveToShadow wr projects fs arg pick confirm).targetPath = some t →
      (fs.nodes t).isSome = true →
      (moveToShadow wr projects fs arg pick confirm).askedOverwrite = true ∧
        (confirm = false →
          (moveToShadow wr projects fs arg pick confirm).fs = fs)) ∧
    (∀ (wr : Option FsPath) (projects : List ShadowProj) (fs : Fs)
      (arg : SourceItemArg) (confirm : Bool) (t : FsPath),
      (copyToWorkspace wr projects fs arg confirm).targetPath = some t →
      (fs.nodes t).isSome = true →
      (copyToWorkspace wr projects fs arg confirm).askedOverwrite = true ∧
        (confirm = false →
          (copyToWorkspace wr projects fs arg confirm).fs = fs)) ∧
    (∀ (wr : Option FsPath) (projects : List ShadowProj) (fs : Fs)
      (arg : SourceItemArg) (confirm : Bool) (t : FsPath),
      (moveToWorkspace wr projects fs arg confirm).targetPath = some t →
      (fs.nodes t).isSome = true →
      (moveToWorkspace wr projects fs arg confirm).askedOverwrite = true ∧
        (confirm = false →
          (moveToWorkspace wr projects fs arg confirm).fs = fs)) := by
  refine ⟨?_, ?_, ?_, ?_⟩
  · intro wr projects fs arg pick confirm t ht hex
    exact toShadowCommand_gate TransferMode.copy wr projects fs arg pick
      confirm t ht hex
  · intro wr projects fs arg pick confirm t ht hex
    exact toShadowCommand_gate TransferMode.move wr projects fs arg pick
      confirm t ht hex
  · intro wr projects fs arg confirm t ht hex
    exact toWorkspaceCommand_gate TransferMode.copy wr projects fs arg
      confirm t ht hex
  · intro wr projects fs arg confirm t ht hex
    exact toWorkspaceCommand_gate TransferMode.move wr projects fs arg
      confirm t ht hex

/-- A small concrete filesystem for instantiating the transfer theorems:
a source file in project `lib`, colliding targets in project `oth` and
the workspace, and a directory in `lib`. -/
def witFs : Fs :=
  ⟨fun p =>
    if p = "/lib/f.txt".toList then some (FsNode.file "C")
    else if p = "/oth/f.txt".toList then some (FsNode.file "D")
    else if p = "/ws/f.txt".toList then some (FsNode.file "E")
    else if p = "/lib/d".toList then some FsNode.dir
    else none,
   fun _ => ScanOutcome.absent⟩

/-- The stored projects used by the transfer witnesses. -/
def witProjects : List ShadowProj :=
  [⟨"lib", "/lib".toList⟩, ⟨"oth", "/oth".toList⟩]

/-- A transfer invocation from a `ShadowFileItem` in project `lib`. -/
def witArg : SourceItemArg :=
  SourceItemArg.shadowFileItem "/lib/f.txt".toList "/lib".toList "lib"

/-- Concrete instantiation of C7: with the target existing in `oth` (and
in the workspace) and confirmation declined, all four commands show the
prompt and leave the filesystem untouched. -/
theorem c7_overwrite_gate_witness :
    ((copyToShadow (some "/ws".toList) witProjects witFs witArg (some "oth")
        false).askedOverwrite = true ∧
      (copyToShadow (some "/ws".toList) witProjects witFs witArg (some "oth")
        false).fs = witFs) ∧
    ((moveToShadow (some "/ws".toList) witProjects witFs witArg (some "oth")
        false).askedOverwrite = true ∧
      (moveToShadow (some "/ws".toList) witProjects witFs witArg (some "oth")
        false).fs = witFs) ∧
    ((copyToWorkspace (some "/ws".toList) witProjects witFs witArg
        false).askedOverwrite = true ∧
      (copyToWorkspace (some "/ws".toList) witProjects witFs witArg
        false).fs = witFs) ∧
    ((moveToWorkspace (some "/ws".toList) witProjects witFs witArg
        false).askedOverwrite = true ∧
      (moveToWorkspace (some "/ws".toList) witProjects witFs witArg
        false).fs = witFs) := by
  have h1 := c7_overwrite_gate.1 (some "/ws".toList) witProjects witFs witArg
    (some "oth") false "/oth/f.txt".toList (by decide) (by decide)
  have h2 := c7_overwrite_gate.2.1 (some "/ws".toList) witProjects witFs
    witArg (some "oth") false "/oth/f.txt".toList (by decide) (by decide)
  have h3 := c7_overwrite_gate.2.2.1 (some "/ws".toList) witProjects witFs
    witArg false "/ws/f.txt".toList (by decide) (by decide)
  have h4 := c7_overwrite_gate.2.2.2 (some "/ws".toList) witProjects witFs
    witArg false "/ws/f.txt".toList (by decide) (by decide)
  exact ⟨⟨h1.1, h1.2 rfl⟩, ⟨h2.1, h2.2 rfl⟩, ⟨h3.1, h3.2 rfl⟩, ⟨h4.1, h4.2 rfl⟩⟩

/-- Claim C9: every transfer — copy or move, toward a shadow project or
the workspace — whose resolved source is not a regular file is rejected
at the stat gate: the run returns the structured, non-fatal `notAFile`
outcome (the "not yet supported" information message), with the
filesystem untouched, the overwrite prompt never shown and no target
computed (`earlyResult` fixes all of those fields). -/
theorem c9_non_file_source_rejected :
    (∀ (wr : Option FsPath) (projects : List ShadowProj) (fs : Fs)
      (arg : SourceItemArg) (pick : Option String) (confirm : Bool)
      (src base : FsPath) (sn : Option String) (k : FsNode),
      resolveCopyMoveSource wr projects arg = some (src, base, sn) →
      fs.nodes src = some k → (∀ c, k ≠ FsNode.file c) →
      copyToShadow wr projects fs arg pick confirm =
        earlyResult fs CmdOutcome.notAFile (some src) ∧
      moveToShadow wr projects fs arg pick confirm =
        earlyResult fs CmdOutcome.notAFile (some src)) ∧
    (∀ (w : FsPath) (projects : List ShadowProj) (fs : Fs)
      (arg : SourceItemArg) (confirm : Bool) (src base : FsPath)
      (pn : String) (k : FsNode),
      resolveWorkspaceTargetSource projects arg = some (src, base, pn) →
      w.isEmpty = false →
      fs.nodes src = some k → (∀ c, k ≠ FsNode.file c) →
      copyToWorkspace (some w) projects fs arg confirm =
        earlyResult fs CmdOutcome.notAFile (some src) ∧
      moveToWorkspace (some w) projects fs arg confirm =
        earlyResult fs CmdOutcome.notAFile (some src)) := by
  constructor
  · intro wr projects fs arg pick confirm src base sn k hres hnode hnf
    have hgoal : ∀ mode,
        toShadowCommand mode wr projects fs arg pick confirm =
          earlyResult fs CmdOutcome.notAFile (some src) := by
      intro mode
      cases k with
      | file c => exact absurd rfl (hnf c)
      | dir => simp [toShadowCommand, hres, hnode]
      | other => simp [toShadowCommand, hres, hnode]
    exact ⟨hgoal TransferMode.copy, hgoal TransferMode.move⟩
  · intro w projects fs arg confirm src base pn k hres hne hnode hnf
    have hgoal : ∀ mode,
        toWorkspaceCommand mode (some w) projects fs arg confirm =
          earlyResult fs CmdOutcome.notAFile (some src) := by
      intro mode
      cases k with
      | file c => exact absurd rfl (hnf c)
      | dir => simp [toWorkspaceCommand, hres, hne, hnode]
      | other => simp [toWorkspaceCommand, hres, hne, hnode]
    exact ⟨hgoal TransferMode.copy, hgoal TransferMode.move⟩

/-- Concrete instantiation of C9: transferring the directory `/lib/d`
out of project `lib` is rejected without mutation by all four commands. -/
theorem c9_non_file_source_witness :
    copyToShadow (some "/ws".toList) witProjects witFs
        (SourceItemArg.shadowFileItem "/lib/d".toList "/lib".toList "lib")
        (some "oth") true =
      earlyResult witFs CmdOutcome.notAFile (some "/lib/d".toList) ∧
    moveToShadow (some "/ws".toList) witProjects witFs
        (SourceItemArg.shadowFileItem "/lib/d".toList "/lib".toList "lib")
        (some "oth") true =
      earlyResult witFs CmdOutcome.notAFile (some "/lib/d".toList) ∧
    copyToWorkspace (some "/ws".toList) witProjects witFs
        (SourceItemArg.shadowFileItem "/lib/d".toList "/lib".toList "lib")
        true =
      earlyResult witFs CmdOutcome.notAFile (some "/lib/d".toList) ∧
    moveToWorkspace (some "/ws".toList) witProjects witFs
        (SourceItemArg.shadowFileItem "/lib/d".toList "/lib".toList "lib")
        true =
      earlyResult witFs CmdOutcome.notAFile (some "/lib/d".toList) := by
  have h1 := c9_non_file_source_rejected.1 (some "/ws".toList) witProjects
    witFs (SourceItemArg.shadowFileItem "/lib/d".toList "/lib".toList "lib")
    (some "oth") true "/lib/d".toList "/lib".toList (some "lib") FsNode.dir
    rfl (by decide) (fun c h => nomatch h)
  have h2 := c9_non_file_source_rejected.2 "/ws".toList witProjects
    witFs (SourceItemArg.shadowFileItem "/lib/d".toList "/lib".toList "lib")
    true "/lib/d".toList "/lib".toList "lib" FsNode.dir
    rfl (by decide) (by decide) (fun c h => nomatch h)
  exact ⟨h1.1, h1.2, h2.1, h2.2⟩

/-- Claim C10: when a copy/move-to-shadow source is attributed to a
shadow project named S, the quick-pick candidates exclude every project
named S, so a selected target project never has name S; and if no other
project remains the command aborts with the filesystem untouched and no
target computed. -/
theorem c10_source_project_excluded :
    ∀ (wr : Option FsPath) (projects : List ShadowProj) (fs : Fs)
      (arg : SourceItemArg) (pick : Option String) (confirm : Bool)
      (src base : FsPath) (S : String),
      resolveCopyMoveSource wr projects arg = some (src, base, some S) →
      (∀ q, (copyToShadow wr projects fs arg pick confirm).selectedProject =
          some q → q.name ≠ S) ∧
      (∀ q, (moveToShadow wr projects fs arg pick confirm).selectedProject =
          some q → q.name ≠ S) ∧
      ((targetsOf projects (some S)).isEmpty = true →
        (copyToShadow wr projects fs arg pick confirm).fs = fs ∧
        (copyToShadow wr projects fs arg pick confirm).targetPath = none ∧
        (moveToShadow wr projects fs arg pick confirm).fs = fs ∧
        (moveToShadow wr projects fs arg pick confirm).targetPath = none) := by
  intro wr projects fs arg pick confirm src base S hres
  have hsel : ∀ mode q,
      (toShadowCommand mode wr projects fs arg pick confirm).selectedProject =
        some q → q.name ≠ S := by
    intro mode q hq
    rcases toShadowCommand_shape mode wr projects fs arg pick confirm with
      ⟨o, osrc, _, he⟩ | ⟨src', base', sname', lbl, proj, hres', hpick, hfind, he⟩
    · rw [he] at hq
      simp [earlyResult] at hq
    · rw [he] at hq
      simp only [tailResult] at hq
      obtain rfl := Option.some_inj.mp hq
      rw [hres] at hres'
      have h3 := Option.some_inj.mp hres'
      have hsn : sname' = some S := by
        have := congrArg (fun x => x.2.2) h3
        simpa using this.symm
      rw [hsn] at hfind
      have hmem := List.mem_of_find?_eq_some hfind
      simp only [targetsOf] at hmem
      have hpred := (List.mem_filter.mp hmem).2
      simp only [decide_eq_true_eq] at hpred
      exact hpred
  have hemp : (targetsOf projects (some S)).isEmpty = true → ∀ mode,
      (toShadowCommand mode wr projects fs arg pick confirm).fs = fs ∧
      (toShadowCommand mode wr projects fs arg pick confirm).targetPath =
        none := by
    intro hemp mode
    rcases toShadowCommand_shape mode wr projects fs arg pick confirm with
      ⟨o, osrc, _, he⟩ | ⟨src', base', sname', lbl, proj, hres', hpick, hfind, he⟩
    · rw [he]
      exact ⟨rfl, rfl⟩
    · rw [hres] at hres'
      have h3 := Option.some_inj.mp hres'
      have hsn : sname' = some S := by
        have := congrArg (fun x => x.2.2) h3
        simpa using this.symm
      rw [hsn] at hfind
      have hmem := List.mem_of_find?_eq_some hfind
      rw [List.isEmpty_iff.mp hemp] at hmem
      simp at hmem
  refine ⟨hsel TransferMode.copy, hsel TransferMode.move, fun h => ?_⟩
  exact ⟨(hemp h TransferMode.copy).1, (hemp h TransferMode.copy).2,
    (hemp h TransferMode.move).1, (hemp h TransferMode.move).2⟩

/-- Concrete instantiation of C10: with `lib` the source project, the
selected target can only be `oth`; and when `lib` is the only stored
project, both commands abort without mutation. -/
theorem c10_source_project_excluded_witness :
    (⟨"oth", "/oth".toList⟩ : ShadowProj).name ≠ "lib" ∧
    (copyToShadow (some "/ws".toList) [⟨"lib", "/lib".toList⟩] witFs witArg
      (some "oth") true).fs = witFs ∧
    (copyToShadow (some "/ws".toList) [⟨"lib", "/lib".toList⟩] witFs witArg
      (some "oth") true).targetPath = none ∧
    (moveToShadow (some "/ws".toList) [⟨"lib", "/lib".toList⟩] witFs witArg
      (some "oth") true).fs = witFs ∧
    (moveToShadow (some "/ws".toList) [⟨"lib", "/lib".toList⟩] witFs witArg
      (some "oth") true).targetPath = none := by
  have h1 := c10_source_project_excluded (some "/ws".toList) witProjects
    witFs witArg (some "oth") true "/lib/f.txt".toList "/lib".toList "lib"
    rfl
  have h2 := c10_source_project_excluded (some "/ws".toList)
    [⟨"lib", "/lib".toList⟩] witFs witArg (some "oth") true
    "/lib/f.txt".toList "/lib".toList "lib" rfl
  have hq := h1.1 ⟨"oth", "/oth".toList⟩ (by decide)
  have habort := h2.2.2 (by decide)
  exact ⟨hq, habort.1, habort.2.1, habort.2.2.1, habort.2.2.2⟩

theorem toShadowCommand_roundtrip (mode : TransferMode) (wr : Option FsPath)
    (projects : List ShadowProj) (fs : Fs) (arg : SourceItemArg)
    (pick : Option String) (confirm : Bool) (s t : FsPath) (c : String)
    (hdone : (toShadowCommand mode wr projects fs arg pick confirm).outcome =
      CmdOutcome.done)
    (hs : (toShadowCommand mode wr projects fs arg pick confirm).sourcePath =
      some s)
    (ht : (toShadowCommand mode wr projects fs arg pick confirm).targetPath =
      some t)
    (hc : fs.nodes s = some (FsNode.file c)) :
    (mode = TransferMode.copy →
      (toShadowCommand mode wr projects fs arg pick confirm).fs.nodes t =
        some (FsNode.file c) ∧
      (toShadowCommand mode wr projects fs arg pick confirm).fs.nodes s =
        some (FsNode.file c)) ∧
    (mode = TransferMode.move → s ≠ t →
      (toShadowCommand mode wr projects fs arg pick confirm).fs.nodes t =
        some (FsNode.file c) ∧
      (toShadowCommand mode wr projects fs arg pick confirm).fs.nodes s =
        none) := by
  rcases toShadowCommand_shape mode wr projects fs arg pick confirm with
    ⟨o, osrc, hne, he⟩ | ⟨src, base, sname, lbl, proj, hres, hpick, hfind, he⟩
  · rw [he] at hdone
    exact absurd hdone hne
  · rw [he] at hdone hs ht ⊢
    simp only [tailResult] at hdone hs ht ⊢
    obtain rfl := Option.some_inj.mp hs
    obtain rfl := Option.some_inj.mp ht
    have hproc :
        (transferTail mode fs src
          (pathJoin proj.path (pathRelative base src)) confirm).2.2 = true := by
      by_contra hnp
      rw [Bool.not_eq_true] at hnp
      rw [hnp] at hdone
      simp at hdone
    exact transferTail_perform mode fs src _ confirm c hproc hc

theorem toWorkspaceCommand_roundtrip (mode : TransferMode)
    (wr : Option FsPath) (projects : List ShadowProj) (fs : Fs)
    (arg : SourceItemArg) (confirm : Bool) (s t : FsPath) (c : String)
    (hdone : (toWorkspaceCommand mode wr projects fs arg confirm).outcome =
      CmdOutcome.done)
    (hs : (toWorkspaceCommand mode wr projects fs arg confirm).sourcePath =
      some s)
    (ht : (toWorkspaceCommand mode wr projects fs arg confirm).targetPath =
      some t)
    (hc : fs.nodes s = some (FsNode.file c)) :
    (mode = TransferMode.copy →
      (toWorkspaceCommand mode wr projects fs arg confirm).fs.nodes t =
        some (FsNode.file c) ∧
      (toWorkspaceCommand mode wr projects fs arg confirm).fs.nodes s =
        some (FsNode.file c)) ∧
    (mode = TransferMode.move → s ≠ t →
      (toWorkspaceCommand mode wr projects fs arg confirm).fs.nodes t =
        some (FsNode.file c) ∧
      (toWorkspaceCommand mode wr projects fs arg confirm).fs.nodes s =
        none) := by
  rcases toWorkspaceCommand_shape mode wr projects fs arg confirm with
    ⟨o, osrc, hne, he⟩ | ⟨src, base, pn, w, hres, hwr, hwne, he⟩
  · rw [he] at hdone
    exact absurd hdone hne
  · rw [he] at hdone hs ht ⊢
    simp only [tailResult] at hdone hs ht ⊢
    obtain rfl := Option.some_inj.mp hs
    obtain rfl := Option.some_inj.mp ht
    have hproc :
        (transferTail mode fs src
          (pathJoin w (pathRelative base src)) confirm).2.2 = true := by
      by_contra hnp
      rw [Bool.not_eq_true] at hnp
      rw [hnp] at hdone
      simp at hdone
    exact transferTail_perform mode fs src _ confirm c hproc hc

/-- Claim C8: a Copy transfer that completes (`done`) leaves the
recorded target path holding the source file's content and the source
file unchanged in place; a Move transfer that completes leaves the
content at the target and removes the source (when source and target
are distinct paths).  Stated for all four commands via their recorded
source and target paths. -/
theorem c8_transfer_round_trip :
    (∀ (wr : Option FsPath) (projects : List ShadowProj) (fs : Fs)
      (arg : SourceItemArg) (pick : Option String) (confirm : Bool)
      (s t : FsPath) (c : String),
      (copyToShadow wr projects fs arg pick confirm).outcome =
        CmdOutcome.done →
      (copyToShadow wr projects fs arg pick confirm).sourcePath = some s →
      (copyToShadow wr projects fs arg pick confirm).targetPath = some t →
      fs.nodes s = some (FsNode.file c) →
      (copyToShadow wr projects fs arg pick confirm).fs.nodes t =
        some (FsNode.file c) ∧
      (copyToShadow wr projects fs arg pick confirm).fs.nodes s =
        some (FsNode.file c)) ∧
    (∀ (wr : Option FsPath) (projects : List ShadowProj) (fs : Fs)
      (arg : SourceItemArg) (pick : Option String) (confirm : Bool)
      (s t : FsPath) (c : String),
      (moveToShadow wr projects fs arg pick confirm).outcome =
        CmdOutcome.done →
      (moveToShadow wr projects fs arg pick confirm).sourcePath = some s →
      (moveToShadow wr projects fs arg pick confirm).targetPath = some t →
      fs.nodes s = some (FsNode.file c) → s ≠ t →
      (moveToShadow wr projects fs arg pick confirm).fs.nodes t =
        some (FsNode.file c) ∧
      (moveToShadow wr projects fs arg pick confirm).fs.nodes s = none) ∧
    (∀ (wr : Option FsPath) (projects : List ShadowProj) (fs : Fs)
      (arg : SourceItemArg) (confirm : Bool) (s t : FsPath) (c : String),
      (copyToWorkspace wr projects fs arg confirm).outcome =
        CmdOutcome.done →
      (copyToWorkspace wr projects fs arg confirm).sourcePath = some s →
      (copyToWorkspace wr projects fs arg confirm).targetPath = some t →
      fs.nodes s = some (FsNode.file c) →
      (copyToWorkspace wr projects fs arg confirm).fs.nodes t =
        some (FsNode.file c) ∧
      (copyToWorkspace wr projects fs arg confirm).fs.nodes s =
        some (FsNode.file c)) ∧
    (∀ (wr : Option FsPath) (projects : List ShadowProj) (fs : Fs)
      (arg : SourceItemArg) (confirm : Bool) (s t : FsPath) (c : String),
      (moveToWorkspace wr projects fs arg confirm).outcome =
        CmdOutcome.done →
      (moveToWorkspace wr projects fs arg confirm).sourcePath = some s →
      (moveToWorkspace wr projects fs arg confirm).targetPath = some t →
      fs.nodes s = some (FsNode.file c) → s ≠ t →
      (moveToWorkspace wr projects fs arg confirm).fs.nodes t =
        some (FsNode.file c) ∧
      (moveToWorkspace wr projects fs arg confirm).fs.nodes s = none) := by
  refine ⟨?_, ?_, ?_, ?_⟩
  · intro wr projects fs arg pick confirm s t c hdone hs ht hc
    exact (toShadowCommand_roundtrip TransferMode.copy wr projects fs arg
      pick confirm s t c hdone hs ht hc).1 rfl
  · intro wr projects fs arg pick confirm s t c hdone hs ht hc hne
    exact (toShadowCommand_roundtrip TransferMode.move wr projects fs arg
      pick confirm s t c hdone hs ht hc).2 rfl hne
  · intro wr projects fs arg confirm s t c hdone hs ht hc
    exact (toWorkspaceCommand_roundtrip TransferMode.copy wr projects fs arg
      confirm s t c hdone hs ht hc).1 rfl
  · intro wr projects fs arg confirm s t c hdone hs ht hc hne
    exact (toWorkspaceCommand_roundtrip TransferMode.move wr projects fs arg
      confirm s t c hdone hs ht hc).2 rfl hne

/-- Concrete instantiation of C8: copying `/lib/f.txt` (content `C`)
into `oth` overwrites `/oth/f.txt` with `C` and leaves the source;
moving it to the workspace puts `C` at `/ws/f.txt` and removes the
source. -/
theorem c8_transfer_round_trip_witness :
    ((copyToShadow (some "/ws".toList) witProjects witFs witArg (some "oth")
        true).fs.nodes "/oth/f.txt".toList = some (FsNode.file "C") ∧
      (copyToShadow (some "/ws".toList) witProjects witFs witArg (some "oth")
        true).fs.nodes "/lib/f.txt".toList = some (FsNode.file "C")) ∧
    ((moveToWorkspace (some "/ws".toList) witProjects witFs witArg
        true).fs.nodes "/ws/f.txt".toList = some (FsNode.file "C") ∧
      (moveToWorkspace (some "/ws".toList) witProjects witFs witArg
        true).fs.nodes "/lib/f.txt".toList = none) := by
  have h1 := c8_transfer_round_trip.1 (some "/ws".toList) witProjects witFs
    witArg (some "oth") true "/lib/f.txt".toList "/oth/f.txt".toList "C"
    (by decide) (by decide) (by decide) (by decide)
  have h2 := c8_transfer_round_trip.2.2.2 (some "/ws".toList) witProjects
    witFs witArg true "/lib/f.txt".toList "/ws/f.txt".toList "C"
    (by decide) (by decide) (by decide) (by decide) (by decide)
  exact ⟨h1, h2⟩

theorem dirFold_mono :
    ∀ (l : List MergedItemSource) (acc : List FsPath) (x : FsPath),
      x ∈ acc → x ∈ l.foldl dirStep acc := by
  intro l
  induction l with
  | nil => intro acc x h; exact h
  | cons s ls ih =>
    intro acc x h
    simp only [List.foldl_cons]
    apply ih
    simp only [dirStep]
    split
    · split
      · exact h
      · simp [h]
    · exact h

theorem dirFold_covers :
    ∀ (l : List MergedItemSource) (acc : List FsPath)
      (s : MergedItemSource), s ∈ l → s.fileType = FileType.directory →
      s.fullPath ∈ l.foldl dirStep acc := by
  intro l
  induction l with
  | nil => intro acc s h; simp at h
  | cons u us ih =>
    intro acc s h hd
    rcases List.mem_cons.mp h with h1 | h1
    · subst h1
      simp only [List.foldl_cons, dirStep, if_pos hd]
      by_cases hmem : s.fullPath ∈ acc
      · rw [if_pos hmem]
        exact dirFold_mono us acc s.fullPath hmem
      · rw [if_neg hmem]
        exact dirFold_mono us _ s.fullPath (by simp)
    · simp only [List.foldl_cons]
      exact ih _ s h1 hd

theorem directoryPaths_contains_ws (i : MergedItemInfo)
    (s : MergedItemSource) (h : i.workspaceSource = some s)
    (hd : s.fileType = FileType.directory) :
    s.fullPath ∈ i.directoryPaths := by
  unfold MergedItemInfo.directoryPaths
  rw [h]
  apply dirFold_mono
  show s.fullPath ∈ (if s.fileType = FileType.directory then [s.fullPath] else [])
  rw [if_pos hd]
  simp

theorem directoryPaths_contains_sh (i : MergedItemInfo)
    (s : MergedItemSource) (h : s ∈ i.shadowSources)
    (hd : s.fileType = FileType.directory) :
    s.fullPath ∈ i.directoryPaths :=
  dirFold_covers i.shadowSources _ s h hd

theorem primaryType_dir_of_ws (i : MergedItemInfo) (s : MergedItemSource)
    (h : i.workspaceSource = some s) (hd : s.fileType = FileType.directory) :
    i.primaryType = FileType.directory := by
  unfold MergedItemInfo.primaryType
  rw [h]
  have hs : srcIsDir s = true := by simp [srcIsDir, hd]
  simp [Option.any, hs]

theorem primaryType_dir_of_sh (i : MergedItemInfo) (s : MergedItemSource)
    (h : s ∈ i.shadowSources) (hd : s.fileType = FileType.directory) :
    i.primaryType = FileType.directory := by
  unfold MergedItemInfo.primaryType
  have hs : i.shadowSources.any srcIsDir = true :=
    List.any_eq_true.mpr ⟨s, h, by simp [srcIsDir, hd]⟩
  simp [hs]

theorem primaryType_file_of (i : MergedItemInfo) (s₀ : MergedItemSource)
    (h : i.workspaceSource = some s₀) (hft : s₀.fileType = FileType.file)
    (hsh : ∀ s ∈ i.shadowSources, s.fileType = FileType.file) :
    i.primaryType = FileType.file := by
  unfold MergedItemInfo.primaryType
  have h1 : Option.any srcIsDir i.workspaceSource = false := by
    rw [h]
    simp [Option.any, srcIsDir, hft]
  have h2 : i.shadowSources.any srcIsDir = false := by
    rw [List.any_eq_false]
    intro s hs
    simp [srcIsDir, hsh s hs]
  rw [h1, h2]
  simp [h, hft]

theorem emitOne_dir (i : MergedItemInfo)
    (hp : i.primaryType = FileType.directory) (hne : i.directoryPaths ≠ []) :
    emitOne i = [VNode.mergedDir i.name i.directoryPaths] := by
  unfold emitOne
  rw [if_pos hp, if_pos (by simpa [List.length_pos] using hne)]

theorem emitOne_file_ws (i : MergedItemInfo) (s₀ : MergedItemSource)
    (hp : i.primaryType = FileType.file) (h : i.workspaceSource = some s₀) :
    emitOne i = VNode.workspaceFile i.name s₀.fullPath ::
      i.shadowSources.map (fun s => VNode.shadowFile i.name s) := by
  unfold emitOne
  rw [if_neg (by rw [hp]; decide), if_pos hp, h]

theorem filter_computeFromPairs (st : ProviderState) (fs : Fs)
    (pairs : List ScanPair) (n : String) (emitted : List VNode)
    (hflt : (emitAll (buildMap st fs pairs)).filter
      (fun v => v.labelOf = n) = emitted)
    (htie : ∀ a ∈ emitted, ∀ b ∈ emitted, cmpItems a b = 0) :
    (computeFromPairs st fs pairs).filter (fun v => v.labelOf = n) =
      emitted := by
  unfold computeFromPairs
  rw [filter_sortItems _ _ ?_, hflt]
  intro a ha b hb hqa hqb
  have ha' : a ∈ emitted := hflt ▸ List.mem_filter.mpr ⟨ha, hqa⟩
  have hb' : b ∈ emitted := hflt ▸ List.mem_filter.mpr ⟨hb, hqb⟩
  exact htie a ha' b hb'

/-- The merged record the engine builds for a name: last workspace
survivor plus first-seen-deduplicated shadow survivors. -/
def mergedInfoAt (st : ProviderState) (fs : Fs) (pairs : List ScanPair)
    (n : String) : MergedItemInfo :=
  ⟨n, wsSrcAfter (allSurvivors st fs pairs) n,
    dedupByPath (shSrcsOf (allSurvivors st fs pairs) n)⟩

theorem findInfo_at (st : ProviderState) (fs : Fs) (pairs : List ScanPair)
    (n : String)
    (hany : ((allSurvivors st fs pairs).any (fun t => t.2.1 = n)) = true) :
    findInfo (buildMap st fs pairs) n = some (mergedInfoAt st fs pairs n) := by
  rw [buildMap_eq_buildTriples, findInfo_buildTriples, if_pos hany]
  rfl

theorem emitAll_filter_some (m : ItemMap) (hm : goodMap m) (n : String)
    (v : MergedItemInfo) (hf : findInfo m n = some v) :
    (emitAll m).filter (fun x => x.labelOf = n) = emitOne v := by
  rw [emitAll_filter m hm n, hf]

/-- Provider state of the C1 counterexample: a shadow project registered
inside the workspace root. -/
def c1St : ProviderState :=
  ⟨some "/ws".toList, [⟨"vendor", "/ws/vendor".toList⟩], none, fun _ => none⟩

/-- Filesystem of the C1 counterexample: `n` is a directory under
`/ws/x` but a file under `/ws/vendor/x`. -/
def c1Fs : Fs :=
  ⟨fun _ => none,
   fun p =>
     if p = "/ws/x".toList then ScanOutcome.ok [("n", FileType.directory)]
     else if p = "/ws/vendor/x".toList then
       ScanOutcome.ok [("n", FileType.file)]
     else ScanOutcome.absent⟩

/-- The merged directory `x` aggregating `/ws/x` and `/ws/vendor/x`. -/
def c1Elem : TreeElement :=
  TreeElement.mergedDirectoryItem "x" ["/ws/x".toList, "/ws/vendor/x".toList]

/-- Claim C1, counterexample: both source directories of the merged
directory `x` classify to the workspace (the shadow project lives inside
the workspace root, so the plain-prefix test attributes its directories
to the workspace too).  The workspace-attributed scan of `/ws/x` reports
`n` as a directory — the first conjunct exhibits that surviving
directory entry — yet the second workspace-attributed scan's file entry
overwrites `workspaceSource`, and the call returns a single FILE node
for `n` and no merged directory node, contradicting the claim. -/
theorem c1_counterexample :
    (true, "n",
      (⟨WORKSPACE_ID, "/ws".toList, "/ws/x/n".toList, FileType.directory⟩ :
        MergedItemSource)) ∈
      allSurvivors c1St c1Fs
        (["/ws/x".toList, "/ws/vendor/x".toList].filterMap
          (classifyDirPath c1St)) ∧
    getChildren c1St c1Fs (some c1Elem) =
      [VNode.workspaceFile "n" "/ws/vendor/x/n".toList] := by
  constructor
  · decide
  · decide

/-- Claim C1 (amended): for every name with at least one surviving
directory-typed entry, the result contains exactly one merged directory
node for that name (carrying the non-empty aggregated directory-path
set) and no file node for that name, provided (a) workspace-attributed
survivors with that name agree on their kind (the counterexample shows
the claim fails otherwise: a later workspace-attributed file entry
overwrites a recorded directory), and (b) survivors with the same
absolute path agree on their kind (true of any scan of one filesystem
snapshot with slash-free entry names). -/
theorem c1_directory_dominance_amended (st : ProviderState) (fs : Fs)
    (pairs : List ScanPair) (n : String)
    (h1 : ∀ t ∈ allSurvivors st fs pairs, ∀ u ∈ allSurvivors st fs pairs,
      t.1 = true → u.1 = true → t.2.1 = n → u.2.1 = n →
      t.2.2.fileType = u.2.2.fileType)
    (h2 : ∀ t ∈ allSurvivors st fs pairs, ∀ u ∈ allSurvivors st fs pairs,
      t.2.2.fullPath = u.2.2.fullPath → t.2.2.fileType = u.2.2.fileType)
    (t₀ : STriple) (ht₀ : t₀ ∈ allSurvivors st fs pairs) (hn₀ : t₀.2.1 = n)
    (hd₀ : t₀.2.2.fileType = FileType.directory) :
    (mergedInfoAt st fs pairs n).directoryPaths ≠ [] ∧
    (computeFromPairs st fs pairs).filter (fun v => v.labelOf = n) =
      [VNode.mergedDir n (mergedInfoAt st fs pairs n).directoryPaths] := by
  have hany : ((allSurvivors st fs pairs).any (fun t => t.2.1 = n)) = true :=
    List.any_eq_true.mpr ⟨t₀, ht₀, by simp [hn₀]⟩
  have hfind := findInfo_at st fs pairs n hany
  have hkey : (mergedInfoAt st fs pairs n).primaryType = FileType.directory ∧
      (mergedInfoAt st fs pairs n).directoryPaths ≠ [] := by
    cases hw : t₀.1 with
    | true =>
      have hwsn : isWsNamed n t₀ = true := by simp [isWsNamed, hw, hn₀]
      have hsome := wsSrcAfter_isSome (allSurvivors st fs pairs) n t₀ ht₀ hwsn
      obtain ⟨s, hs⟩ := Option.isSome_iff_exists.mp hsome
      rcases wsSrcAfter_mem (allSurvivors st fs pairs) n s hs with
        ⟨u, hu, huw, hus⟩
      have hufl : u.1 = true ∧ u.2.1 = n := by
        simpa [isWsNamed] using huw
      have hsd : s.fileType = FileType.directory := by
        rw [← hus, h1 u hu t₀ ht₀ hufl.1 hw hufl.2 hn₀]
        exact hd₀
      have hiw : (mergedInfoAt st fs pairs n).workspaceSource = some s := hs
      refine ⟨primaryType_dir_of_ws _ s hiw hsd, fun hnil => ?_⟩
      have hcon := directoryPaths_contains_ws _ s hiw hsd
      rw [hnil] at hcon
      simp at hcon
    | false =>
      have hshn : isShNamed n t₀ = true := by simp [isShNamed, hw, hn₀]
      have hmem : t₀.2.2 ∈ shSrcsOf (allSurvivors st fs pairs) n :=
        (mem_shSrcsOf _ n t₀.2.2).mpr ⟨t₀, ht₀, hshn, rfl⟩
      rcases mem_dedupByPath _ _ hmem with ⟨y, hy, hyp⟩
      have hy' := dedupByPath_subset _ y hy
      rcases (mem_shSrcsOf _ n y).mp hy' with ⟨u, hu, huw, huy⟩
      have hyd : y.fileType = FileType.directory := by
        rw [← huy, h2 u hu t₀ ht₀ (by rw [huy]; exact hyp)]
        exact hd₀
      have hiy : y ∈ (mergedInfoAt st fs pairs n).shadowSources := hy
      refine ⟨primaryType_dir_of_sh _ y hiy hyd, fun hnil => ?_⟩
      have hcon := directoryPaths_contains_sh _ y hiy hyd
      rw [hnil] at hcon
      simp at hcon
  refine ⟨hkey.2, ?_⟩
  have hemit := emitOne_dir (mergedInfoAt st fs pairs n) hkey.1 hkey.2
  have hgm : goodMap (buildMap st fs pairs) := by
    rw [buildMap_eq_buildTriples]
    exact goodMap_buildTriples _
  have hflt := emitAll_filter_some (buildMap st fs pairs) hgm n _ hfind
  rw [hemit] at hflt
  have hname : (mergedInfoAt st fs pairs n).name = n := rfl
  rw [hname] at hflt
  apply filter_computeFromPairs st fs pairs n _ hflt
  intro a ha b hb
  simp only [List.mem_singleton] at ha hb
  rw [ha, hb]
  exact cmpItems_self _

/-- Provider state shared by the C1 and C2 witnesses: workspace `/ws`
and one shadow project `lib`. -/
def w1St : ProviderState :=
  ⟨some "/ws".toList, [⟨"lib", "/lib".toList⟩], none, fun _ => none⟩

/-- Root scan pairs for the witnesses. -/
def w1Pairs : List ScanPair :=
  [⟨"/ws".toList, "/ws".toList, WORKSPACE_ID, true⟩,
   ⟨"/lib".toList, "/lib".toList, "lib", false⟩]

/-- Filesystem for the C1 witness: `src` is a directory in both roots. -/
def w1Fs : Fs :=
  ⟨fun _ => none,
   fun p =>
     if p = "/ws".toList then ScanOutcome.ok [("src", FileType.directory)]
     else if p = "/lib".toList then
       ScanOutcome.ok [("src", FileType.directory)]
     else ScanOutcome.absent⟩

/-- Concrete instantiation of the amended C1 theorem: `src` a directory
in both roots yields exactly one merged directory node and no file node. -/
theorem c1_directory_dominance_witness :
    (mergedInfoAt w1St w1Fs w1Pairs "src").directoryPaths ≠ [] ∧
    (computeFromPairs w1St w1Fs w1Pairs).filter
        (fun v => v.labelOf = "src") =
      [VNode.mergedDir "src"
        (mergedInfoAt w1St w1Fs w1Pairs "src").directoryPaths] :=
  c1_directory_dominance_amended w1St w1Fs w1Pairs "src"
    (by decide) (by decide)
    (true, "src",
      ⟨WORKSPACE_ID, "/ws".toList, "/ws/src".toList, FileType.directory⟩)
    (by decide) rfl rfl

/-- Claim C2: when a name survives as the unique workspace-attributed
file entry and as shadow-attributed file entries with pairwise distinct
absolute paths (one per contributing shadow project, in scan — i.e.
registry — order), the result's nodes for that name are exactly one
workspace file node followed by one shadow file node per contributing
shadow source, in that order. -/
theorem c2_root_precedence (st : ProviderState) (fs : Fs)
    (pairs : List ScanPair) (n : String) (s₀ : MergedItemSource)
    (ss : List MergedItemSource)
    (hw : (allSurvivors st fs pairs).filter (isWsNamed n) = [(true, n, s₀)])
    (hsh : shSrcsOf (allSurvivors st fs pairs) n = ss)
    (hft : s₀.fileType = FileType.file)
    (hfts : ∀ s ∈ ss, s.fileType = FileType.file)
    (hnd : ss.Pairwise (fun a b => a.fullPath ≠ b.fullPath)) :
    (computeFromPairs st fs pairs).filter (fun v => v.labelOf = n) =
      VNode.workspaceFile n s₀.fullPath ::
        ss.map (fun s => VNode.shadowFile n s) := by
  have ht₀ : ((true, n, s₀) : STriple) ∈
      (allSurvivors st fs pairs).filter (isWsNamed n) := by
    rw [hw]
    simp
  have ht₀' := List.mem_filter.mp ht₀
  have hany : ((allSurvivors st fs pairs).any (fun t => t.2.1 = n)) = true :=
    List.any_eq_true.mpr ⟨_, ht₀'.1, by simp⟩
  have hfind := findInfo_at st fs pairs n hany
  have hws : wsSrcAfter (allSurvivors st fs pairs) n = some s₀ := by
    have hsome := wsSrcAfter_isSome _ n _ ht₀'.1 ht₀'.2
    obtain ⟨s, hs⟩ := Option.isSome_iff_exists.mp hsome
    rcases wsSrcAfter_mem _ n s hs with ⟨u, hu, huw, hus⟩
    have humem : u ∈ (allSurvivors st fs pairs).filter (isWsNamed n) :=
      List.mem_filter.mpr ⟨hu, huw⟩
    rw [hw] at humem
    simp only [List.mem_singleton] at humem
    rw [humem] at hus
    rw [hs, ← hus]
  have hinfo_ws : (mergedInfoAt st fs pairs n).workspaceSource = some s₀ := hws
  have hinfo_sh : (mergedInfoAt st fs pairs n).shadowSources = ss := by
    show dedupByPath (shSrcsOf (allSurvivors st fs pairs) n) = ss
    rw [hsh]
    exact dedupByPath_eq_self ss hnd
  have hpt : (mergedInfoAt st fs pairs n).primaryType = FileType.file :=
    primaryType_file_of _ s₀ hinfo_ws hft (by rw [hinfo_sh]; exact hfts)
  have hemit := emitOne_file_ws (mergedInfoAt st fs pairs n) s₀ hpt hinfo_ws
  rw [hinfo_sh] at hemit
  have hname : (mergedInfoAt st fs pairs n).name = n := rfl
  rw [hname] at hemit
  have hgm : goodMap (buildMap st fs pairs) := by
    rw [buildMap_eq_buildTriples]
    exact goodMap_buildTriples _
  have hflt := emitAll_filter_some (buildMap st fs pairs) hgm n _ hfind
  rw [hemit] at hflt
  have hshape : ∀ a ∈ (VNode.workspaceFile n s₀.fullPath ::
      ss.map (fun s => VNode.shadowFile n s)),
      a.isCollapsible = false ∧ a.labelOf = n := by
    intro a ha
    rcases List.mem_cons.mp ha with h1 | h1
    · subst h1
      exact ⟨rfl, rfl⟩
    · rcases List.mem_map.mp h1 with ⟨s, _, he⟩
      subst he
      exact ⟨rfl, rfl⟩
  apply filter_computeFromPairs st fs pairs n _ hflt
  intro a ha b hb
  exact cmpItems_eq_zero_of a b
    (by rw [(hshape a ha).1, (hshape b hb).1])
    (labelBase_congr a b (by rw [(hshape a ha).2, (hshape b hb).2]))

/-- Filesystem for the C2 witness: `a.txt` is a file in both roots. -/
def w2Fs : Fs :=
  ⟨fun _ => none,
   fun p =>
     if p = "/ws".toList then ScanOutcome.ok [("a.txt", FileType.file)]
     else if p = "/lib".toList then ScanOutcome.ok [("a.txt", FileType.file)]
     else ScanOutcome.absent⟩

/-- Concrete instantiation of C2: `a.txt` in the workspace and one
shadow project yields the workspace node followed by the `lib` node. -/
theorem c2_root_precedence_witness :
    (computeFromPairs w1St w2Fs w1Pairs).filter
        (fun v => v.labelOf = "a.txt") =
      VNode.workspaceFile "a.txt" "/ws/a.txt".toList ::
        ([⟨"lib", "/lib".toList, "/lib/a.txt".toList, FileType.file⟩] :
          List MergedItemSource).map
          (fun s => VNode.shadowFile "a.txt" s) :=
  c2_root_precedence w1St w2Fs w1Pairs "a.txt"
    ⟨WORKSPACE_ID, "/ws".toList, "/ws/a.txt".toList, FileType.file⟩
    [⟨"lib", "/lib".toList, "/lib/a.txt".toList, FileType.file⟩]
    (by decide) (by decide) rfl (by decide) (by decide)

end ShadowProjectExt
